import Mathlib

/-! pico-sh1106: frame-buffer addressing and display protocol.

A shallow embedding of `src/ssd1306.cpp` (namespace `pico_ssd1306`).

* Machine integers are `Int` / `Nat` with the conversions written out
  (`toInt16`, `toUInt8`).
* The display object becomes the record `SSD1306`; every member function takes
  the record and returns the updated record (all member functions are `void`).
* The two-wire bus is the record `i2c_inst`: it logs every attempted write and
  carries the outcomes the transport will report for the coming writes.
-/

namespace pico_ssd1306

/-! ## Data model -/

/-- Panel geometry (the `Size` enumeration used by the constructor and `setPixel`). -/
inductive Size where
  | W128xH64
  | W128xH32
  deriving DecidableEq, Repr

/-- Write mode selecting OR, AND-with-complement or XOR. -/
inductive WriteMode where
  | ADD
  | SUBTRACT
  | INVERT
  deriving DecidableEq, Repr

/-- One attempted bus transfer: the device address and the bytes handed to the transport. -/
structure BusWrite where
  addr : Nat
  data : List Nat
  deriving DecidableEq, Repr

/-- Modelled from the spec: the bus handle of the external transport
(`write(address, bytes) -> success|failure`, blocking). `log` holds every write attempted so
far, oldest first; `outcomes` holds the results the transport will report for the coming
writes (`true` = success), and a transport with no listed outcome left succeeds. -/
structure i2c_inst where
  outcomes : List Bool
  log : List BusWrite
  deriving DecidableEq, Repr

/-- Modelled from the spec: the blocking write of the external transport. It reports success
or failure and records the attempt. -/
def i2c_write_blocking (i2c : i2c_inst) (addr : Nat) (src : List Nat) : Bool × i2c_inst :=
  match i2c.outcomes with
  | [] => (true, { outcomes := [], log := i2c.log ++ [⟨addr, src⟩] })
  | ok :: rest => (ok, { outcomes := rest, log := i2c.log ++ [⟨addr, src⟩] })

/-- Conversion of an `int` to `int16_t` (two's complement wrap). -/
def toInt16 (v : Int) : Int := (v + 32768) % 65536 - 32768

/-- Conversion of an `int` to `unsigned char` / `uint8_t`. -/
def toUInt8 (v : Int) : Nat := (v % 256).toNat

/-- Modelled from the spec: the frame-buffer class `FrameBuffer` held in the member
`frameBuffer` (its header and implementation are not among the sources). The spec's
PackedBitBuffer: a byte array with OR / AND / XOR at a byte offset, full clear, full replace and
a read-only view. -/
structure FrameBuffer where
  buffer : List Nat
  deriving DecidableEq, Repr

namespace FrameBuffer

/-- Modelled from the spec: the byte at `n` as the read-only view `get()` shows it
(0 outside the array). -/
def byteAt (fb : FrameBuffer) (n : Nat) : Nat := fb.buffer.getD n 0

/-- Modelled from the spec: `byteOR(offset, mask)` applies bitwise OR to the byte at `offset`.
An offset outside `[0, size)` is outside the contract; the model leaves the array as it is. -/
def byteOR (fb : FrameBuffer) (n : Nat) (byte : Nat) : FrameBuffer :=
  if n < fb.buffer.length then ⟨fb.buffer.set n ((fb.byteAt n ||| byte) % 256)⟩ else fb

/-- Modelled from the spec: `byteAND(offset, mask)` applies bitwise AND to the byte at
`offset`. An offset outside `[0, size)` is outside the contract; the model leaves the array as
it is. -/
def byteAND (fb : FrameBuffer) (n : Nat) (byte : Nat) : FrameBuffer :=
  if n < fb.buffer.length then ⟨fb.buffer.set n ((fb.byteAt n &&& byte) % 256)⟩ else fb

/-- Modelled from the spec: `byteXOR(offset, mask)` applies bitwise XOR to the byte at
`offset`. An offset outside `[0, size)` is outside the contract; the model leaves the array as
it is. -/
def byteXOR (fb : FrameBuffer) (n : Nat) (byte : Nat) : FrameBuffer :=
  if n < fb.buffer.length then ⟨fb.buffer.set n ((fb.byteAt n ^^^ byte) % 256)⟩ else fb

/-- Modelled from the spec: `clear()` zeroes every byte. -/
def clear (fb : FrameBuffer) : FrameBuffer := ⟨List.replicate fb.buffer.length 0⟩

/-- Modelled from the spec: `get()`, the view the transfer reads from. -/
def get (fb : FrameBuffer) : List Nat := fb.buffer

end FrameBuffer

/-- The display object: bus handle, device address, geometry, logical width and height,
inversion flag and the owned frame buffer. -/
structure SSD1306 where
  i2CInst : i2c_inst
  address : Nat
  size : Size
  width : Nat
  height : Nat
  inverted : Bool
  frameBuffer : FrameBuffer
  deriving DecidableEq, Repr

/-- Logical height the constructor stores for a geometry (lines 12-16). -/
def heightOf (size : Size) : Nat :=
  if size = Size.W128xH32 then 32 else 64

/-- Number of pages `sendBuffer` transfers (line 84). -/
def PAGES : Nat := 8

/-- Number of payload bytes `sendBuffer` copies per page (line 92). -/
def PAGE_BYTES : Nat := 128

/-- State invariant of a constructed display: `width` and `height` are the values the
constructor stores for the geometry, the frame buffer holds at least the `8 * 128` bytes that
`sendBuffer` reads, and every element is a byte. -/
def SSD1306.wf (d : SSD1306) : Prop :=
  d.width = 128 ∧ d.height = heightOf d.size ∧
  PAGES * PAGE_BYTES ≤ d.frameBuffer.buffer.length ∧
  ∀ b ∈ d.frameBuffer.buffer, b < 256

instance (d : SSD1306) : Decidable d.wf := by
  unfold SSD1306.wf; infer_instance

/-! ## `setPixel` -/

/-- Lines 62-69 of `setPixel`: the row used for addressing and the mask `byte`, for a row `y`
that passed the bounds check (so `y` is not negative and is held as a natural number). A row
below `height` is at most 63, so `(y << 1) + 1` stays inside `int16_t` and `byte >> 1` inside
`char`; these two conversions change nothing and are not written out. -/
def pixelRowByte (size : Size) (y : Nat) : Nat × Nat :=
  if size = Size.W128xH32 then
    let y := (y <<< 1) + 1
    let byte := toUInt8 ((1 <<< (y &&& 7) : Nat) : Int)
    let byte_offset := byte >>> 1
    (y, toUInt8 ((byte ||| byte_offset : Nat) : Int))
  else
    (y, toUInt8 ((1 <<< (y &&& 7) : Nat) : Int))

/-- The mask `byte` that `setPixel` hands to the frame buffer for row `y`. -/
def pixelMask (size : Size) (y : Nat) : Nat := (pixelRowByte size y).2

/-- The offset expression `x + (y / 8) * this->width` of lines 73, 75 and 77, with `y` the row
after the geometry-dependent step. -/
def pixelOffset (size : Size) (width : Nat) (x y : Nat) : Nat :=
  x + ((pixelRowByte size y).1 / 8) * width

/-- Member function `SSD1306::setPixel` (lines 52-81). After the bounds check `x` and `y` are
not negative; `y / 8` and `y & 7` are then taken on natural numbers. -/
def setPixel (d : SSD1306) (x y : Int) (mode : WriteMode) : SSD1306 :=
  if x < 0 ∨ x ≥ d.width ∨ y < 0 ∨ y ≥ d.height then d
  else
    let byte := pixelMask d.size y.toNat
    let n := pixelOffset d.size d.width x.toNat y.toNat
    match mode with
    | WriteMode.ADD => { d with frameBuffer := d.frameBuffer.byteOR n byte }
    | WriteMode.SUBTRACT =>
        { d with frameBuffer := d.frameBuffer.byteAND n (toUInt8 (-(byte : Int) - 1)) }
    | WriteMode.INVERT => { d with frameBuffer := d.frameBuffer.byteXOR n byte }

/-! ## Protocol primitives -/

/-- Member function `SSD1306::cmd` (lines 137-141): one two-byte frame; the value returned by
the write is dropped. -/
def cmd (d : SSD1306) (command : Nat) : SSD1306 :=
  let data := [0x00, command]
  { d with i2CInst := (i2c_write_blocking d.i2CInst d.address data).2 }

/-- The buffer indices that the `memcpy` of line 92 reads for one page: the 128 indices starting
at `page * 128`. -/
def sendPageReads (page : Nat) : List Nat :=
  (List.range 128).map (fun k => page * 128 + k)

/-- Body of the page loop of `sendBuffer` (lines 85-94) for one page: three addressing
commands, then a write of always 129 bytes, the data marker followed by the 128 bytes copied
from the indices `sendPageReads page` of the buffer view. A read past the end of the buffer is
outside the contract and yields 0 in the model. The value returned by the write is dropped. -/
def sendPage (d : SSD1306) (page : Nat) : SSD1306 :=
  let d := cmd d (toUInt8 (0xB0 + page))
  let d := cmd d 0x02
  let d := cmd d 0x10
  let data := 0x40 :: (sendPageReads page).map (fun i => d.frameBuffer.get.getD i 0)
  { d with i2CInst := (i2c_write_blocking d.i2CInst d.address data).2 }

/-- Member function `SSD1306::sendBuffer` (lines 83-96). -/
def sendBuffer (d : SSD1306) : SSD1306 :=
  (List.range 8).foldl sendPage d

/-- Member function `SSD1306::clear` (lines 98-100). -/
def clear (d : SSD1306) : SSD1306 :=
  { d with frameBuffer := d.frameBuffer.clear }

/-! ## Bitmap blitting -/

/-- Innermost loop of `addBitmapImage` (lines 122-126): the eight bits of one source byte,
most significant first. -/
def blitByte (anchorX anchorY : Int) (mode : WriteMode) (y x byte : Nat)
    (d : SSD1306) : SSD1306 :=
  (List.range 8).foldl
    (fun d z =>
      if (byte >>> (7 - z)) &&& 1 ≠ 0 then
        setPixel d (toInt16 ((x * 8 + z : Nat) + anchorX)) (toInt16 ((y : Int) + anchorY)) mode
      else d)
    d

/-- Member function `SSD1306::addBitmapImage` (lines 113-130). `image_width` and `image_height` are `uint8_t`
values; a read of `image` past its end is outside the contract and yields 0 in the model. -/
def addBitmapImage (d : SSD1306) (anchorX anchorY : Int) (image_width image_height : Nat)
    (image : List Nat) (mode : WriteMode) : SSD1306 :=
  (List.range image_height).foldl
    (fun d y =>
      (List.range (image_width / 8)).foldl
        (fun d x =>
          let byte := image.getD (y * (image_width / 8) + x) 0
          blitByte anchorX anchorY mode y x byte d)
        d)
    d

/-! ## Concrete states used in examples -/

/-- A constructed-looking display with an all-zero 1024-byte buffer and an idle bus. -/
def demoDisplay (size : Size) : SSD1306 :=
  { i2CInst := { outcomes := [], log := [] }
    address := 0x3C
    size := size
    width := 128
    height := heightOf size
    inverted := false
    frameBuffer := ⟨List.replicate 1024 0⟩ }

/-! ## Specification-side vocabulary -/

open WriteMode

/-- The byte a write mode leaves at the addressed offset, given the old byte and the mask. -/
def modeByte (mode : WriteMode) (old mask : Nat) : Nat :=
  match mode with
  | ADD => old ||| mask
  | SUBTRACT => old &&& (255 ^^^ mask)
  | INVERT => old ^^^ mask

/-- Number of set bits among the eight bits of a byte. -/
def popCount8 (b : Nat) : Nat := ((List.range 8).filter (fun j => b.testBit j)).length

/-- Number of set bits in a whole buffer of bytes. -/
def bufferBits (l : List Nat) : Nat := (l.map popCount8).sum

/-- The four bus writes the spec lists for one page of a transfer from buffer `fb` to the
device at `addr`: page address, low column, high column, then the data marker 0x40 followed by
the 128 buffer bytes at indices `page * 128 .. page * 128 + 127`. -/
def pageWrites (addr : Nat) (fb : FrameBuffer) (page : Nat) : List BusWrite :=
  [⟨addr, [0x00, 0xB0 + page]⟩, ⟨addr, [0x00, 0x02]⟩, ⟨addr, [0x00, 0x10]⟩,
   ⟨addr, 0x40 :: (List.range 128).map (fun k => fb.byteAt (page * 128 + k))⟩]

/-- Source bit of column `c` in row `r` of a packed bitmap `image_width` pixels wide:
row-major, eight pixels per byte, most significant bit first. -/
def sourceBit (image_width : Nat) (image : List Nat) (r c : Nat) : Bool :=
  (image.getD (r * (image_width / 8) + c / 8) 0).testBit (7 - c % 8)

/-- The coordinates `(r, c)` of the set source bits of a bitmap, in row-major order. -/
def setSourceBits (image_width image_height : Nat) (image : List Nat) : List (Nat × Nat) :=
  (List.range image_height).flatMap
    (fun r => ((List.range image_width).filter (sourceBit image_width image r)).map
      (fun c => (r, c)))

/-- One `setPixel` call per listed source coordinate `(r, c)`, in list order, at the anchored
coordinate `(anchorX + c, anchorY + r)` converted to the `int16_t` parameters. -/
def blitPixels (d : SSD1306) (anchorX anchorY : Int) (mode : WriteMode)
    (ps : List (Nat × Nat)) : SSD1306 :=
  ps.foldl
    (fun d p => setPixel d (toInt16 (anchorX + (p.2 : Nat))) (toInt16 (anchorY + (p.1 : Nat))) mode)
    d

/-- The display `d` on a transport that will report the outcomes `o` for the coming writes. -/
def withOutcomes (d : SSD1306) (o : List Bool) : SSD1306 :=
  { d with i2CInst := { d.i2CInst with outcomes := o } }

/-- Two displays agree on everything a caller can observe: the attempted bus writes, the
address, the geometry, the inversion flag and the frame buffer. Only the outcomes still held by
the transport may differ. -/
def agreeUpToOutcomes (d1 d2 : SSD1306) : Prop :=
  d1.i2CInst.log = d2.i2CInst.log ∧ d1.address = d2.address ∧ d1.size = d2.size ∧
  d1.width = d2.width ∧ d1.height = d2.height ∧ d1.inverted = d2.inverted ∧
  d1.frameBuffer = d2.frameBuffer

instance (d1 d2 : SSD1306) : Decidable (agreeUpToOutcomes d1 d2) := by
  unfold agreeUpToOutcomes; infer_instance

/-! ## Control operations and construction -/

/-- Modelled from the spec: macro `SSD1306_CONTRAST` of the header, which is not among the
sources: the contrast opcode, 0x81 in the setup list of the constructor (line 32). -/
def SSD1306_CONTRAST : Nat := 0x81

/-- Modelled from the spec: macro `SSD1306_INVERTED_OFF` of the header, which is not among the
sources: the normal-display opcode, 0xA6 in the setup list of the constructor (line 36, whose
comment gives 0xA7 as the inverse-display opcode). -/
def SSD1306_INVERTED_OFF : Nat := 0xA6

/-- Modelled from the spec: macro `SSD1306_DISPLAY_OFF` of the header, which is not among the
sources: the display-off opcode, 0xAE in the setup list of the constructor (line 23). -/
def SSD1306_DISPLAY_OFF : Nat := 0xAE

/-- Modelled from the spec: macro `SSD1306_DISPLAY_ON` of the header, which is not among the
sources: the display-on opcode, 0xAF in the setup list of the constructor (line 37). -/
def SSD1306_DISPLAY_ON : Nat := 0xAF

/-- Modelled from the spec: macro `SSD1306_CLUMN_REMAP_OFF` of the header, which is not among
the sources: the segment-remap opcode pair is A0/A1 (line 29). -/
def SSD1306_CLUMN_REMAP_OFF : Nat := 0xA0

/-- Modelled from the spec: macro `SSD1306_CLUMN_REMAP_ON` of the header, which is not among
the sources: the segment-remap opcode the constructor sends (line 29). -/
def SSD1306_CLUMN_REMAP_ON : Nat := 0xA1

/-- Modelled from the spec: macro `SSD1306_COM_REMAP_OFF` of the header, which is not among the
sources: the COM-scan-direction opcode pair is C0/C8 (line 30). -/
def SSD1306_COM_REMAP_OFF : Nat := 0xC0

/-- Modelled from the spec: macro `SSD1306_COM_REMAP_ON` of the header, which is not among the
sources: the COM-scan-direction opcode the constructor sends (line 30). -/
def SSD1306_COM_REMAP_ON : Nat := 0xC8

/-- Member function `SSD1306::setOrientation` (lines 102-111). -/
def setOrientation (d : SSD1306) (orientation : Bool) : SSD1306 :=
  if orientation then
    let d := cmd d SSD1306_CLUMN_REMAP_OFF
    cmd d SSD1306_COM_REMAP_OFF
  else
    let d := cmd d SSD1306_CLUMN_REMAP_ON
    cmd d SSD1306_COM_REMAP_ON

/-- Member function `SSD1306::invertDisplay` (lines 132-135): `!this->inverted` is 0 or 1 and
is OR-ed into the opcode before the flag is flipped. -/
def invertDisplay (d : SSD1306) : SSD1306 :=
  let d := cmd d
    (toUInt8 ((SSD1306_INVERTED_OFF ||| (if (!d.inverted) = true then 1 else 0) : Nat) : Int))
  { d with inverted := !d.inverted }

/-- Member function `SSD1306::setContrast` (lines 144-147). -/
def setContrast (d : SSD1306) (contrast : Nat) : SSD1306 :=
  let d := cmd d SSD1306_CONTRAST
  cmd d contrast

/-- Member function `SSD1306::turnOff` (lines 153-155). -/
def turnOff (d : SSD1306) : SSD1306 := cmd d SSD1306_DISPLAY_OFF

/-- Member function `SSD1306::turnOn` (lines 157-159). -/
def turnOn (d : SSD1306) : SSD1306 := cmd d SSD1306_DISPLAY_ON

/-- Modelled from the spec: `replace(rawBytes)` of the frame-buffer class (`setBuffer` in the
code, not among the sources) overwrites the full buffer from an equally-sized external source;
a size mismatch is an error, reported here as `none`. -/
def FrameBuffer.setBuffer (fb : FrameBuffer) (new_buffer : List Nat) : Option FrameBuffer :=
  if new_buffer.length = fb.buffer.length then some ⟨new_buffer⟩ else none

/-- Member function `SSD1306::setBuffer` (lines 149-151): hands the bytes to the frame buffer
and returns nothing; when the frame buffer reports an error the display is left as it was. -/
def setBuffer (d : SSD1306) (buffer : List Nat) : SSD1306 :=
  match d.frameBuffer.setBuffer buffer with
  | some fb => { d with frameBuffer := fb }
  | none => d

/-- The list `setup` of the constructor (lines 22-38). -/
def setup : List Nat :=
  [0xAE,
   0xD5, 0x80,
   0xA8, 0x3F,
   0xD3, 0x00,
   0x40,
   0xAD, 0x8B,
   0xA1,
   0xC8,
   0xDA, 0x12,
   0x81, 0x7F,
   0xD9, 0x22,
   0xDB, 0x35,
   0xA4,
   0xA6,
   0xAF]

/-- The constructor `SSD1306::SSD1306` (lines 4-50), named `construct` here because the
record type already carries the name. The member `frameBuffer` is
default-constructed by the frame-buffer class, which is not among the sources; its state at
that point is the argument `frameBuffer`, whose content the constructor does not rely on. -/
def SSD1306.construct (i2CInst : i2c_inst) (Address : Nat) (size : Size)
    (frameBuffer : FrameBuffer) : SSD1306 :=
  let d : SSD1306 :=
    { i2CInst := i2CInst
      address := Address
      size := size
      width := 128
      height := if size = Size.W128xH32 then 32 else 64
      inverted := false
      frameBuffer := frameBuffer }
  let d := setup.foldl cmd d
  let d := clear d
  sendBuffer d

/-- A bus write is a command frame of the display at `addr`: two bytes, the first 0x00. -/
def isCommandFrame (addr : Nat) (w : BusWrite) : Prop :=
  w.addr = addr ∧ w.data.length = 2 ∧ w.data.head? = some 0x00

/-- A bus write is a data block of the display at `addr`: 129 bytes, the first 0x40. -/
def isDataBlock (addr : Nat) (w : BusWrite) : Prop :=
  w.addr = addr ∧ w.data.length = 129 ∧ w.data.head? = some 0x40

/-- The command frame `cmd` builds for the command byte `b`. -/
def commandFrame (addr b : Nat) : BusWrite := ⟨addr, [0x00, b]⟩

/-- All in-bounds logical pixels `(x, y)` of a geometry, row by row. -/
def allPixels (size : Size) : List (Nat × Nat) :=
  (List.range (heightOf size)).flatMap (fun y => (List.range 128).map (fun x => (x, y)))

/-- One `setPixel` call with mode ADD per listed pixel `(x, y)`, in list order. -/
def addPixels (d : SSD1306) (ps : List (Nat × Nat)) : SSD1306 :=
  ps.foldl (fun d p => setPixel d (p.1 : Nat) (p.2 : Nat) WriteMode.ADD) d

/-! ## Basic facts about addressing and `setPixel` -/

set_option maxRecDepth 100000 in
theorem toUInt8_complement : ∀ m : Nat, m < 256 → toUInt8 (-(m : Int) - 1) = 255 ^^^ m := by
  decide

theorem pixelMask_lt (size : Size) (y : Nat) : pixelMask size y < 256 := by
  unfold pixelMask pixelRowByte toUInt8
  split <;> simp only <;> omega

theorem pixelRow_eq (size : Size) (y : Nat) :
    (pixelRowByte size y).1 = if size = Size.W128xH32 then 2 * y + 1 else y := by
  unfold pixelRowByte
  split <;> simp [Nat.shiftLeft_eq]; omega

theorem pixelOffset_eq (size : Size) (width x y : Nat) :
    pixelOffset size width x y
      = x + (if size = Size.W128xH32 then (2 * y + 1) / 8 else y / 8) * width := by
  unfold pixelOffset
  rw [pixelRow_eq]
  split <;> rfl

theorem pixelOffset_lt (size : Size) (x y : Nat) (hx : x < 128) (hy : y < heightOf size) :
    pixelOffset size 128 x y < 1024 := by
  rw [pixelOffset_eq]
  unfold heightOf at hy
  split at hy <;> simp_all <;> omega


theorem byteAt_set (l : List Nat) (n v i : Nat) (h : n < l.length) :
    (FrameBuffer.mk (l.set n v)).byteAt i = if i = n then v else (FrameBuffer.mk l).byteAt i := by
  unfold FrameBuffer.byteAt
  simp only [List.getD_eq_getElem?_getD, List.getElem?_set]
  by_cases hi : i = n
  · subst hi; simp [h]
  · have : ¬ n = i := fun e => hi e.symm
    simp [hi, this]

theorem byteAt_lt (d : SSD1306) (hwf : d.wf) (i : Nat) : d.frameBuffer.byteAt i < 256 := by
  unfold FrameBuffer.byteAt
  rw [List.getD_eq_getElem?_getD]
  cases h : d.frameBuffer.buffer[i]? with
  | none => simp
  | some b =>
    simp only [Option.getD_some]
    exact hwf.2.2.2 b (List.getElem?_mem h)

theorem modeByte_lt (mode : WriteMode) (old mask : Nat) (ho : old < 256) (hm : mask < 256) :
    modeByte mode old mask < 256 := by
  cases mode
  · exact Nat.or_lt_two_pow (n := 8) ho hm
  · exact lt_of_le_of_lt Nat.and_le_left ho
  · exact Nat.xor_lt_two_pow (n := 8) ho hm

/-- What `setPixel` does to the record for a pixel that passes the bounds check. -/
theorem setPixel_eq (d : SSD1306) (x y : Nat) (mode : WriteMode) (hwf : d.wf)
    (hx : x < 128) (hy : y < heightOf d.size) :
    setPixel d x y mode =
      { d with frameBuffer :=
          ⟨d.frameBuffer.buffer.set (pixelOffset d.size 128 x y)
            (modeByte mode (d.frameBuffer.byteAt (pixelOffset d.size 128 x y))
              (pixelMask d.size y))⟩ } := by
  obtain ⟨hw, hh, hlen, hb⟩ := hwf
  have hoff : pixelOffset d.size 128 x y < d.frameBuffer.buffer.length :=
    lt_of_lt_of_le (pixelOffset_lt d.size x y hx hy) (by simpa [PAGES, PAGE_BYTES] using hlen)
  have hm := pixelMask_lt d.size y
  have ho := byteAt_lt d ⟨hw, hh, hlen, hb⟩ (pixelOffset d.size 128 x y)
  have hcond : ¬ ((x : Int) < 0 ∨ (x : Int) ≥ d.width ∨ (y : Int) < 0 ∨ (y : Int) ≥ d.height) := by
    rw [hw, hh]; omega
  unfold setPixel
  rw [if_neg hcond]
  simp only [Int.toNat_ofNat, hw]
  cases mode
  · simp only [FrameBuffer.byteOR, if_pos hoff, modeByte]
    rw [Nat.mod_eq_of_lt (Nat.or_lt_two_pow (n := 8) ho hm)]
  · simp only [FrameBuffer.byteAND, if_pos hoff, modeByte]
    rw [toUInt8_complement _ hm, Nat.mod_eq_of_lt (lt_of_le_of_lt Nat.and_le_left ho)]
  · simp only [FrameBuffer.byteXOR, if_pos hoff, modeByte]
    rw [Nat.mod_eq_of_lt (Nat.xor_lt_two_pow (n := 8) ho hm)]

/-- The early return of `setPixel` (line 54). -/
theorem setPixel_out_of_bounds_eq (d : SSD1306) (x y : Int) (mode : WriteMode)
    (hw : d.width = 128) (hh : d.height = heightOf d.size)
    (hout : x < 0 ∨ x ≥ 128 ∨ y < 0 ∨ y ≥ heightOf d.size) :
    setPixel d x y mode = d := by
  unfold setPixel
  rw [if_pos]
  rw [hw, hh]
  exact_mod_cast hout

/-! ## Pixel operations -/

theorem modeByte_testBit_in (mode : WriteMode) (old mask j : Nat) (hm : mask < 256)
    (hj : mask.testBit j = true) :
    (modeByte mode old mask).testBit j =
      match mode with
      | ADD => true
      | SUBTRACT => false
      | INVERT => !old.testBit j := by
  have h255 : (255 : Nat).testBit j = decide (j < 8) := by
    have := Nat.testBit_two_pow_sub_one 8 j
    simpa using this
  have hj8 : j < 8 := by
    by_contra hge
    have : mask.testBit j = false :=
      Nat.testBit_lt_two_pow
        (lt_of_lt_of_le hm (Nat.pow_le_pow_right (n := 2) (by decide) (by omega : 8 ≤ j)))
    rw [this] at hj
    exact Bool.noConfusion hj
  cases mode <;>
    simp [modeByte, Nat.testBit_or, Nat.testBit_and, Nat.testBit_xor, hj, h255, hj8]

theorem modeByte_testBit_out (mode : WriteMode) (old mask j : Nat) (ho : old < 256)
    (hj : mask.testBit j = false) :
    (modeByte mode old mask).testBit j = old.testBit j := by
  have h255 : (255 : Nat).testBit j = decide (j < 8) := by
    have := Nat.testBit_two_pow_sub_one 8 j
    simpa using this
  cases mode
  · simp [modeByte, Nat.testBit_or, hj]
  · simp only [modeByte, Nat.testBit_and, Nat.testBit_xor, hj, h255, Bool.xor_false]
    by_cases h8 : j < 8
    · simp [h8]
    · have : old.testBit j = false :=
        Nat.testBit_lt_two_pow
          (lt_of_lt_of_le ho (Nat.pow_le_pow_right (n := 2) (by decide) (by omega : 8 ≤ j)))
      simp [this]
  · simp [modeByte, Nat.testBit_xor, hj]

theorem demoDisplay_wf (size : Size) : (demoDisplay size).wf := by
  refine ⟨rfl, rfl, ?_, ?_⟩
  · show 8 * 128 ≤ (List.replicate 1024 0).length
    rw [List.length_replicate]
  · intro b hb
    have hb0 : b = 0 := (List.mem_replicate.mp hb).2
    omega

theorem demoDisplay_byteAt (size : Size) (i : Nat) : (demoDisplay size).frameBuffer.byteAt i = 0 := by
  show (List.replicate 1024 0).getD i 0 = 0
  rw [List.getD_eq_getElem?_getD, List.getElem?_replicate]
  split <;> rfl

/-- C1: for a constructed display and an in-bounds pixel, with `off` and `mask` the offset and
mask `setPixel` computes: ADD leaves `old ||| mask` at `off`, SUBTRACT leaves `old &&& ~mask`
(complement within 8 bits), INVERT leaves `old ^^^ mask`; every mask bit then reads 1, 0 and
the flipped old bit respectively; the bits of that byte outside the mask, every other byte and
the length of the buffer are unchanged in every mode. -/
theorem setPixel_mode_semantics (d : SSD1306) (x y : Int) (hwf : d.wf)
    (hx0 : 0 ≤ x) (hx1 : x < 128) (hy0 : 0 ≤ y) (hy1 : y < heightOf d.size) :
    (setPixel d x y ADD).frameBuffer.byteAt (pixelOffset d.size d.width x.toNat y.toNat)
        = d.frameBuffer.byteAt (pixelOffset d.size d.width x.toNat y.toNat)
            ||| pixelMask d.size y.toNat ∧
    (setPixel d x y SUBTRACT).frameBuffer.byteAt (pixelOffset d.size d.width x.toNat y.toNat)
        = d.frameBuffer.byteAt (pixelOffset d.size d.width x.toNat y.toNat)
            &&& (255 ^^^ pixelMask d.size y.toNat) ∧
    (setPixel d x y INVERT).frameBuffer.byteAt (pixelOffset d.size d.width x.toNat y.toNat)
        = d.frameBuffer.byteAt (pixelOffset d.size d.width x.toNat y.toNat)
            ^^^ pixelMask d.size y.toNat ∧
    (∀ j, (pixelMask d.size y.toNat).testBit j = true →
      ((setPixel d x y ADD).frameBuffer.byteAt
          (pixelOffset d.size d.width x.toNat y.toNat)).testBit j = true ∧
      ((setPixel d x y SUBTRACT).frameBuffer.byteAt
          (pixelOffset d.size d.width x.toNat y.toNat)).testBit j = false ∧
      ((setPixel d x y INVERT).frameBuffer.byteAt
          (pixelOffset d.size d.width x.toNat y.toNat)).testBit j
        = !(d.frameBuffer.byteAt (pixelOffset d.size d.width x.toNat y.toNat)).testBit j) ∧
    (∀ mode j, (pixelMask d.size y.toNat).testBit j = false →
      ((setPixel d x y mode).frameBuffer.byteAt
          (pixelOffset d.size d.width x.toNat y.toNat)).testBit j
        = (d.frameBuffer.byteAt (pixelOffset d.size d.width x.toNat y.toNat)).testBit j) ∧
    (∀ mode i, i ≠ pixelOffset d.size d.width x.toNat y.toNat →
      (setPixel d x y mode).frameBuffer.byteAt i = d.frameBuffer.byteAt i) ∧
    (∀ mode, (setPixel d x y mode).frameBuffer.buffer.length = d.frameBuffer.buffer.length) := by
  obtain ⟨xn, rfl⟩ := Int.eq_ofNat_of_zero_le hx0
  obtain ⟨yn, rfl⟩ := Int.eq_ofNat_of_zero_le hy0
  have hx : xn < 128 := by omega
  have hy : yn < heightOf d.size := by omega
  have hoff : pixelOffset d.size 128 xn yn < d.frameBuffer.buffer.length :=
    lt_of_lt_of_le (pixelOffset_lt d.size xn yn hx hy)
      (by simpa [PAGES, PAGE_BYTES] using hwf.2.2.1)
  have hold := byteAt_lt d hwf (pixelOffset d.size 128 xn yn)
  have key : ∀ mode i, (setPixel d xn yn mode).frameBuffer.byteAt i
      = if i = pixelOffset d.size 128 xn yn then
          modeByte mode (d.frameBuffer.byteAt (pixelOffset d.size 128 xn yn)) (pixelMask d.size yn)
        else d.frameBuffer.byteAt i := by
    intro mode i
    rw [setPixel_eq d xn yn mode hwf hx hy]
    exact byteAt_set _ _ _ _ hoff
  simp only [Int.toNat_ofNat, hwf.1]
  refine ⟨?_, ?_, ?_, ?_, ?_, ?_, ?_⟩
  · rw [key, if_pos rfl]; rfl
  · rw [key, if_pos rfl]; rfl
  · rw [key, if_pos rfl]; rfl
  · intro j hj
    refine ⟨?_, ?_, ?_⟩
    · rw [key, if_pos rfl]; exact modeByte_testBit_in ADD _ _ j (pixelMask_lt _ _) hj
    · rw [key, if_pos rfl]; exact modeByte_testBit_in SUBTRACT _ _ j (pixelMask_lt _ _) hj
    · rw [key, if_pos rfl]; exact modeByte_testBit_in INVERT _ _ j (pixelMask_lt _ _) hj
  · intro mode j hj
    rw [key, if_pos rfl]
    exact modeByte_testBit_out mode _ _ j hold hj
  · intro mode i hi
    rw [key, if_neg hi]
  · intro mode
    rw [setPixel_eq d xn yn mode hwf hx hy]
    simp

/-- Instance of `setPixel_mode_semantics`: the half-height display with a cleared buffer, pixel
(5, 31). -/
theorem setPixel_mode_semantics_witness :
    (demoDisplay Size.W128xH32).wf ∧ (0 : Int) ≤ 5 ∧ (5 : Int) < 128 ∧ (0 : Int) ≤ 31 ∧
    (31 : Int) < heightOf (demoDisplay Size.W128xH32).size ∧
    (setPixel (demoDisplay Size.W128xH32) 5 31 ADD).frameBuffer.byteAt 901 = 192 :=
  ⟨demoDisplay_wf _, by decide, by decide, by decide, by decide,
    by
      have h := (setPixel_mode_semantics (demoDisplay Size.W128xH32) 5 31 (demoDisplay_wf _)
        (by decide) (by decide) (by decide) (by decide)).1
      have e1 : pixelOffset (demoDisplay Size.W128xH32).size (demoDisplay Size.W128xH32).width
          (5 : Int).toNat (31 : Int).toNat = 901 := by decide
      have e2 : pixelMask (demoDisplay Size.W128xH32).size (31 : Int).toNat = 192 := by decide
      rw [e1, e2] at h
      rw [h, demoDisplay_byteAt]
      decide⟩

/-- C2: on a display whose `width` and `height` are the ones the constructor stores
(`height` = 64 for 128x64, 32 for 128x32), `setPixel` at a coordinate with `x < 0`, `x ≥ 128`,
`y < 0` or `y ≥ height` returns the display as it was, in every write mode: the frame buffer is
unchanged and no bus write is logged. -/
theorem setPixel_out_of_bounds (d : SSD1306) (x y : Int) (mode : WriteMode)
    (hw : d.width = 128) (hh : d.height = heightOf d.size)
    (hout : x < 0 ∨ x ≥ 128 ∨ y < 0 ∨ y ≥ heightOf d.size) :
    setPixel d x y mode = d ∧
    (setPixel d x y mode).frameBuffer.buffer = d.frameBuffer.buffer ∧
    (setPixel d x y mode).i2CInst.log = d.i2CInst.log ∧
    heightOf Size.W128xH64 = 64 ∧ heightOf Size.W128xH32 = 32 := by
  have h : setPixel d x y mode = d := setPixel_out_of_bounds_eq d x y mode hw hh hout
  rw [h]
  exact ⟨rfl, rfl, rfl, rfl, rfl⟩

/-- Instance of `setPixel_out_of_bounds`: row 32 of the half-height display, mode INVERT. -/
theorem setPixel_out_of_bounds_witness :
    setPixel (demoDisplay Size.W128xH32) 0 32 INVERT = demoDisplay Size.W128xH32 :=
  (setPixel_out_of_bounds (demoDisplay Size.W128xH32) 0 32 INVERT rfl rfl
    (Or.inr (Or.inr (Or.inr (by decide))))).1

theorem sum_map_set (f : Nat → Nat) (l : List Nat) (i v : Nat) (h : i < l.length) :
    ((l.set i v).map f).sum + f (l.getD i 0) = (l.map f).sum + f v := by
  induction l generalizing i with
  | nil => simp at h
  | cons a t ih =>
    cases i with
    | zero => simp; omega
    | succ k =>
      have hk : k < t.length := by simpa using h
      have := ih k hk
      simp only [List.set_cons_succ, List.map_cons, List.sum_cons, List.getD_cons_succ]
      omega

theorem bufferBits_set_zero (n i v : Nat) (h : i < n) :
    bufferBits ((List.replicate n 0).set i v) = popCount8 v := by
  have hs := sum_map_set popCount8 (List.replicate n 0) i v (by simpa using h)
  have h0 : popCount8 0 = 0 := by decide
  have hz : ((List.replicate n 0).map popCount8).sum = 0 := by
    simp [List.map_replicate, List.sum_replicate, h0]
  have hg : (List.replicate n 0).getD i 0 = 0 := by
    rw [List.getD_eq_getElem?_getD, List.getElem?_replicate]
    split <;> rfl
  rw [hg, h0, hz] at hs
  unfold bufferBits
  omega

theorem clear_wf (d : SSD1306) (hwf : d.wf) : (clear d).wf := by
  obtain ⟨hw, hh, hlen, _⟩ := hwf
  refine ⟨hw, hh, ?_, ?_⟩
  · simpa [clear, FrameBuffer.clear] using hlen
  · intro b hb
    have hb0 : b = 0 := by
      simp only [clear, FrameBuffer.clear] at hb
      exact (List.mem_replicate.mp hb).2
    omega

theorem pixelMask_popCount (size : Size) (y : Nat) (hy : y < heightOf size) :
    popCount8 (pixelMask size y) = if size = Size.W128xH32 then 2 else 1 := by
  cases size
  · have : ∀ y, y < 64 → popCount8 (pixelMask Size.W128xH64 y) = 1 := by decide
    simpa using this y hy
  · have : ∀ y, y < 32 → popCount8 (pixelMask Size.W128xH32 y) = 2 := by decide
    simpa using this y hy

/-- C3: on the half-height geometry the mask of every in-bounds row equals `p ||| (p >>> 1)`
with `p = 1 <<< (((y <<< 1) + 1) % 8)`, has exactly two set bits, and these sit at adjacent
positions `k`, `k + 1` of one byte; on the full-height geometry the mask of every in-bounds row
has exactly one set bit. On a cleared buffer of a constructed display, `setPixel` with mode ADD
at an in-bounds pixel leaves exactly two set bits (half-height) or one (full-height) in the whole
buffer. -/
theorem setPixel_mask_bits :
    (∀ y : Nat, y < 32 →
      pixelMask Size.W128xH32 y
        = (1 <<< (((y <<< 1) + 1) % 8)) ||| ((1 <<< (((y <<< 1) + 1) % 8)) >>> 1) ∧
      popCount8 (pixelMask Size.W128xH32 y) = 2 ∧
      ∃ k, k + 1 < 8 ∧ ∀ j, j < 8 →
        ((pixelMask Size.W128xH32 y).testBit j = true ↔ (j = k ∨ j = k + 1))) ∧
    (∀ y : Nat, y < 64 → popCount8 (pixelMask Size.W128xH64 y) = 1) ∧
    (∀ (d : SSD1306) (x y : Int), d.wf → 0 ≤ x → x < 128 → 0 ≤ y → y < heightOf d.size →
      bufferBits (setPixel (clear d) x y ADD).frameBuffer.buffer
        = if d.size = Size.W128xH32 then 2 else 1) := by
  refine ⟨?_, ?_, ?_⟩
  · intro y hy
    have h : ∀ y : Nat, y < 32 →
        pixelMask Size.W128xH32 y
          = (1 <<< (((y <<< 1) + 1) % 8)) ||| ((1 <<< (((y <<< 1) + 1) % 8)) >>> 1) ∧
        popCount8 (pixelMask Size.W128xH32 y) = 2 ∧
        2 * (y % 4) + 1 < 8 ∧ ∀ j, j < 8 →
          ((pixelMask Size.W128xH32 y).testBit j = true
            ↔ (j = 2 * (y % 4) ∨ j = 2 * (y % 4) + 1)) := by
      decide
    obtain ⟨h1, h2, h3, h4⟩ := h y hy
    exact ⟨h1, h2, 2 * (y % 4), h3, h4⟩
  · decide
  · intro d x y hwf hx0 hx1 hy0 hy1
    obtain ⟨xn, rfl⟩ := Int.eq_ofNat_of_zero_le hx0
    obtain ⟨yn, rfl⟩ := Int.eq_ofNat_of_zero_le hy0
    have hx : xn < 128 := by omega
    have hy : yn < heightOf d.size := by omega
    have hcw := clear_wf d hwf
    have hy' : yn < heightOf (clear d).size := hy
    rw [setPixel_eq (clear d) xn yn ADD hcw hx hy']
    have hlen : pixelOffset d.size 128 xn yn < d.frameBuffer.buffer.length :=
      lt_of_lt_of_le (pixelOffset_lt d.size xn yn hx hy)
        (by simpa [PAGES, PAGE_BYTES] using hwf.2.2.1)
    have hz : (clear d).frameBuffer.byteAt (pixelOffset (clear d).size 128 xn yn) = 0 := by
      show (List.replicate d.frameBuffer.buffer.length 0).getD _ 0 = 0
      rw [List.getD_eq_getElem?_getD, List.getElem?_replicate]
      split <;> rfl
    rw [hz]
    show bufferBits ((List.replicate d.frameBuffer.buffer.length 0).set
      (pixelOffset d.size 128 xn yn) (0 ||| pixelMask d.size yn)) = _
    rw [bufferBits_set_zero _ _ _ hlen, Nat.zero_or]
    exact pixelMask_popCount d.size yn hy

/-- Instance of `setPixel_mask_bits`: row 2 of the half-height geometry has mask 0x30, and
pixel (3, 2) set on a cleared half-height display leaves two set bits. -/
theorem setPixel_mask_bits_witness :
    pixelMask Size.W128xH32 2 = 48 ∧
    bufferBits (setPixel (clear (demoDisplay Size.W128xH32)) 3 2 ADD).frameBuffer.buffer = 2 :=
  ⟨((setPixel_mask_bits.1 2 (by decide)).1).trans (by decide),
   setPixel_mask_bits.2.2 (demoDisplay Size.W128xH32) 3 2 (demoDisplay_wf _)
     (by decide) (by decide) (by decide) (by decide)⟩

theorem pixelMask_full (y : Nat) : pixelMask Size.W128xH64 y = 1 <<< (y % 8) := by
  have h7 : y &&& 7 = y % 8 := Nat.and_pow_two_sub_one_eq_mod y 3
  have hlt : y % 8 < 8 := Nat.mod_lt _ (by decide)
  have hb : ∀ k, k < 8 → toUInt8 ((1 <<< k : Nat) : Int) = 1 <<< k := by decide
  show (pixelRowByte Size.W128xH64 y).2 = _
  unfold pixelRowByte
  simp only [if_neg (by decide : ¬ Size.W128xH64 = Size.W128xH32), h7]
  exact hb _ hlt

theorem pixelMask_half (y : Nat) :
    pixelMask Size.W128xH32 y
      = (1 <<< (((y <<< 1) + 1) % 8)) ||| ((1 <<< (((y <<< 1) + 1) % 8)) >>> 1) := by
  have h7 : ((y <<< 1) + 1) &&& 7 = ((y <<< 1) + 1) % 8 :=
    Nat.and_pow_two_sub_one_eq_mod _ 3
  have hlt : ((y <<< 1) + 1) % 8 < 8 := Nat.mod_lt _ (by decide)
  have hb : ∀ k, k < 8 →
      toUInt8 (((toUInt8 ((1 <<< k : Nat) : Int)) ||| (toUInt8 ((1 <<< k : Nat) : Int) >>> 1) : Nat) : Int)
        = (1 <<< k) ||| ((1 <<< k) >>> 1) := by decide
  show (pixelRowByte Size.W128xH32 y).2 = _
  unfold pixelRowByte
  simp only [if_pos, h7]
  exact hb _ hlt

/-- C4: for a constructed display and an in-bounds pixel, `setPixel` rewrites exactly the byte
at offset `x + page * 128`. Full height: `page = y / 8` and the mask is the single bit
`y % 8`. Half height: with `y' = (y <<< 1) + 1`, `page = y' / 8 = y / 4`, the primary bit is
`y' % 8 = 2 * (y % 4) + 1`, and the mask holds exactly the bits `2 * (y % 4)` and
`2 * (y % 4) + 1`. -/
theorem setPixel_addressing (d : SSD1306) (x y : Int) (mode : WriteMode) (hwf : d.wf)
    (hx0 : 0 ≤ x) (hx1 : x < 128) (hy0 : 0 ≤ y) (hy1 : y < heightOf d.size) :
    (d.size = Size.W128xH64 →
      (setPixel d x y mode).frameBuffer.buffer
        = d.frameBuffer.buffer.set (x.toNat + (y.toNat / 8) * 128)
            (modeByte mode (d.frameBuffer.byteAt (x.toNat + (y.toNat / 8) * 128))
              (1 <<< (y.toNat % 8)))) ∧
    (d.size = Size.W128xH32 →
      (setPixel d x y mode).frameBuffer.buffer
        = d.frameBuffer.buffer.set (x.toNat + (((y.toNat <<< 1) + 1) / 8) * 128)
            (modeByte mode (d.frameBuffer.byteAt (x.toNat + (((y.toNat <<< 1) + 1) / 8) * 128))
              ((1 <<< (((y.toNat <<< 1) + 1) % 8))
                ||| ((1 <<< (((y.toNat <<< 1) + 1) % 8)) >>> 1))) ∧
      ((y.toNat <<< 1) + 1) / 8 = y.toNat / 4 ∧
      ((y.toNat <<< 1) + 1) % 8 = 2 * (y.toNat % 4) + 1 ∧
      ∀ j, (((1 <<< (((y.toNat <<< 1) + 1) % 8))
                ||| ((1 <<< (((y.toNat <<< 1) + 1) % 8)) >>> 1) : Nat).testBit j = true
              ↔ (j = 2 * (y.toNat % 4) ∨ j = 2 * (y.toNat % 4) + 1))) := by
  obtain ⟨xn, rfl⟩ := Int.eq_ofNat_of_zero_le hx0
  obtain ⟨yn, rfl⟩ := Int.eq_ofNat_of_zero_le hy0
  have hx : xn < 128 := by omega
  have hy : yn < heightOf d.size := by omega
  have hs := setPixel_eq d xn yn mode hwf hx hy
  simp only [Int.toNat_ofNat]
  refine ⟨fun h64 => ?_, fun h32 => ⟨?_, ?_, ?_, ?_⟩⟩
  · rw [hs, pixelOffset_eq, h64, pixelMask_full]
    simp
  · rw [hs, pixelOffset_eq, h32, pixelMask_half]
    simp [Nat.shiftLeft_eq, Nat.mul_comm]
  · rw [Nat.shiftLeft_eq]; omega
  · rw [Nat.shiftLeft_eq]; omega
  · have hm : ((yn <<< 1) + 1) % 8 = 2 * (yn % 4) + 1 := by rw [Nat.shiftLeft_eq]; omega
    rw [hm]
    have h4 : yn % 4 < 4 := Nat.mod_lt _ (by decide)
    have hall : ∀ r, r < 4 → ∀ j,
        (((1 <<< (2 * r + 1)) ||| ((1 <<< (2 * r + 1)) >>> 1) : Nat).testBit j = true
          ↔ (j = 2 * r ∨ j = 2 * r + 1)) := by
      intro r hr j
      have hj : j < 8 ∨ 8 ≤ j := Nat.lt_or_ge j 8
      rcases hj with hj | hj
      · revert j; revert r; decide
      · have hlt : ((1 <<< (2 * r + 1)) ||| ((1 <<< (2 * r + 1)) >>> 1) : Nat) < 2 ^ j := by
          have h256 : ((1 <<< (2 * r + 1)) ||| ((1 <<< (2 * r + 1)) >>> 1) : Nat) < 256 := by
            revert r; decide
          exact lt_of_lt_of_le h256 (Nat.pow_le_pow_right (n := 2) (by decide) hj)
        rw [Nat.testBit_lt_two_pow hlt]
        constructor
        · intro h; exact Bool.noConfusion h
        · intro h; omega
    exact hall _ h4

/-- Instance of `setPixel_addressing`: pixel (5, 31) of the cleared half-height display in mode
ADD rewrites byte 5 + 7 * 128 = 901. -/
theorem setPixel_addressing_witness :
    (demoDisplay Size.W128xH32).wf ∧
    ((31 : Int).toNat <<< 1 + 1) / 8 = (31 : Int).toNat / 4 ∧
    ((31 : Int).toNat <<< 1 + 1) % 8 = 2 * ((31 : Int).toNat % 4) + 1 :=
  ⟨demoDisplay_wf _,
   ((setPixel_addressing (demoDisplay Size.W128xH32) 5 31 ADD (demoDisplay_wf _)
      (by decide) (by decide) (by decide) (by decide)).2 rfl).2.1,
   by decide⟩

/-! ## Buffer bounds -/

/-- C5 as stated fails: on the half-height display pixel (0, 31) passes the bounds check, and
`setPixel` writes byte 896, which is not below `width * height / 8 = 512`. -/
theorem setPixel_offset_exceeds_geometry_size :
    ¬ ((0 : Int) < 0 ∨ (0 : Int) ≥ (demoDisplay Size.W128xH32).width ∨ (31 : Int) < 0
        ∨ (31 : Int) ≥ (demoDisplay Size.W128xH32).height) ∧
    (demoDisplay Size.W128xH32).width * (demoDisplay Size.W128xH32).height / 8 = 512 ∧
    pixelOffset Size.W128xH32 (demoDisplay Size.W128xH32).width 0 31 = 896 ∧
    ¬ (pixelOffset Size.W128xH32 (demoDisplay Size.W128xH32).width 0 31
        < (demoDisplay Size.W128xH32).width * (demoDisplay Size.W128xH32).height / 8) ∧
    (demoDisplay Size.W128xH32).frameBuffer.byteAt 896 = 0 ∧
    (setPixel (demoDisplay Size.W128xH32) 0 31 ADD).frameBuffer.byteAt 896 = 192 := by
  refine ⟨by decide, by decide, by decide, by decide, demoDisplay_byteAt _ _, ?_⟩
  have h := setPixel_eq (demoDisplay Size.W128xH32) 0 31 ADD (demoDisplay_wf _)
    (by decide) (by decide)
  have e : setPixel (demoDisplay Size.W128xH32) 0 31 ADD
      = setPixel (demoDisplay Size.W128xH32) ((0 : Nat) : Int) ((31 : Nat) : Int) ADD := rfl
  have e1 : pixelOffset (demoDisplay Size.W128xH32).size 128 0 31 = 896 := by decide
  have e2 : pixelMask (demoDisplay Size.W128xH32).size 31 = 192 := by decide
  rw [e, h, e1, e2, demoDisplay_byteAt]
  have hlen : 896 < (demoDisplay Size.W128xH32).frameBuffer.buffer.length := by
    show 896 < (List.replicate 1024 0).length
    rw [List.length_replicate]; decide
  rw [byteAt_set _ _ _ _ hlen, if_pos rfl]
  decide

/-- C5 as amended: for a constructed display of either geometry and every pixel that passes
the bounds check, the offset `setPixel` hands to the frame buffer is below `8 * 128 = 1024`,
the number of bytes `sendBuffer` transfers, and so inside the buffer; the bound is reached,
since the last pixel `(127, height - 1)` passes the bounds check and has offset 1023. On the
full-height geometry 1024 is `width * height / 8`. On the half-height geometry
`width * height / 8` is 512, and the offset is at least 512 exactly for the rows `y ≥ 16`. -/
theorem setPixel_offset_in_transfer_range (d : SSD1306) (x y : Int) (hwf : d.wf)
    (hx0 : 0 ≤ x) (hx1 : x < d.width) (hy0 : 0 ≤ y) (hy1 : y < d.height) :
    pixelOffset d.size d.width x.toNat y.toNat < PAGES * PAGE_BYTES ∧
    pixelOffset d.size d.width x.toNat y.toNat < d.frameBuffer.buffer.length ∧
    (d.size = Size.W128xH64 → PAGES * PAGE_BYTES = d.width * d.height / 8) ∧
    (d.size = Size.W128xH32 → d.width * d.height / 8 = 512) ∧
    (d.size = Size.W128xH32 →
      (16 ≤ y ↔ d.width * d.height / 8 ≤ pixelOffset d.size d.width x.toNat y.toNat)) ∧
    (¬ ((127 : Int) < 0 ∨ (127 : Int) ≥ d.width ∨ ((d.height - 1 : Nat) : Int) < 0
          ∨ ((d.height - 1 : Nat) : Int) ≥ d.height) ∧
      pixelOffset d.size d.width 127 (d.height - 1) = 1023) := by
  obtain ⟨hw, hh, hlen, _⟩ := hwf
  rw [hw] at hx1
  rw [hh] at hy1
  obtain ⟨xn, rfl⟩ := Int.eq_ofNat_of_zero_le hx0
  obtain ⟨yn, rfl⟩ := Int.eq_ofNat_of_zero_le hy0
  have hx : xn < 128 := by omega
  have hy : yn < heightOf d.size := by omega
  have h := pixelOffset_lt d.size xn yn hx hy
  simp only [Int.toNat_ofNat, hw, hh]
  refine ⟨h, lt_of_lt_of_le h (by simpa [PAGES, PAGE_BYTES] using hlen), ?_, ?_, ?_, ?_, ?_⟩
  · intro h64
    rw [h64]
    decide
  · intro h32
    rw [h32]
    decide
  · intro h32
    rw [h32] at hy ⊢
    rw [pixelOffset_eq]
    have hy32 : yn < 32 := hy
    have h512 : 128 * heightOf Size.W128xH32 / 8 = 512 := by decide
    simp only [if_pos, h512]
    omega
  · cases hs : d.size <;> decide
  · rw [pixelOffset_eq]
    cases hs : d.size <;> decide

/-- Instance of `setPixel_offset_in_transfer_range`: pixel (0, 31) of the half-height
display. -/
theorem setPixel_offset_in_transfer_range_witness :
    (demoDisplay Size.W128xH32).wf ∧
    pixelOffset (demoDisplay Size.W128xH32).size (demoDisplay Size.W128xH32).width
      (0 : Int).toNat (31 : Int).toNat < PAGES * PAGE_BYTES :=
  ⟨demoDisplay_wf _,
   (setPixel_offset_in_transfer_range (demoDisplay Size.W128xH32) 0 31 (demoDisplay_wf _)
      (by decide) (by decide) (by decide) (by decide)).1⟩

/-! ## Buffer transfer -/

theorem i2c_write_blocking_log (i2c : i2c_inst) (addr : Nat) (src : List Nat) :
    (i2c_write_blocking i2c addr src).2.log = i2c.log ++ [⟨addr, src⟩] := by
  unfold i2c_write_blocking
  cases i2c.outcomes <;> rfl

theorem cmd_log (d : SSD1306) (command : Nat) :
    (cmd d command).i2CInst.log = d.i2CInst.log ++ [⟨d.address, [0x00, command]⟩] := by
  unfold cmd
  exact i2c_write_blocking_log _ _ _

theorem cmd_frame (d : SSD1306) (command : Nat) :
    (cmd d command).address = d.address ∧ (cmd d command).size = d.size ∧
    (cmd d command).width = d.width ∧ (cmd d command).height = d.height ∧
    (cmd d command).inverted = d.inverted ∧ (cmd d command).frameBuffer = d.frameBuffer :=
  ⟨rfl, rfl, rfl, rfl, rfl, rfl⟩

theorem slice_eq_map (l : List Nat) (s n : Nat) (h : s + n ≤ l.length) :
    (l.drop s).take n = (List.range n).map (fun k => l.getD (s + k) 0) := by
  apply List.ext_getElem?
  intro i
  by_cases hi : i < n
  · have h1 : s + i < l.length := by omega
    simp [List.getElem?_take, hi, List.getElem?_drop, List.getElem?_map, List.getElem?_range,
      List.getD_eq_getElem?_getD, List.getElem?_eq_getElem h1]
  · have h1 : ((l.drop s).take n)[i]? = none := by
      rw [List.getElem?_eq_none_iff]; simp; omega
    have h2 : ((List.range n).map (fun k => l.getD (s + k) 0))[i]? = none := by
      rw [List.getElem?_eq_none_iff]; simp; omega
    rw [h1, h2]

theorem slices_concat (l : List Nat) (k n : Nat) :
    (List.range n).flatMap (fun p => (l.drop (p * k)).take k) = l.take (n * k) := by
  induction n with
  | zero => simp
  | succ m ih =>
    rw [List.range_succ, List.flatMap_append, ih]
    simp only [List.flatMap_cons, List.flatMap_nil, List.append_nil]
    rw [Nat.succ_mul, List.take_add]

theorem sendPage_log (d : SSD1306) (page : Nat) (hp : page < 8)
    (_hlen : 1024 ≤ d.frameBuffer.buffer.length) :
    (sendPage d page).i2CInst.log = d.i2CInst.log ++ pageWrites d.address d.frameBuffer page := by
  have hb : toUInt8 (0xB0 + page) = 0xB0 + page := by
    unfold toUInt8; omega
  have hs : (sendPageReads page).map (fun i => d.frameBuffer.buffer.getD i 0)
      = (List.range 128).map (fun k => d.frameBuffer.byteAt (page * 128 + k)) := by
    unfold sendPageReads
    rw [List.map_map]
    rfl
  unfold sendPage
  simp only [i2c_write_blocking_log, cmd_log, cmd_frame, FrameBuffer.get, hb, hs, pageWrites,
    List.append_assoc, List.singleton_append, List.cons_append, List.nil_append]

theorem sendPage_frame (d : SSD1306) (page : Nat) :
    (sendPage d page).address = d.address ∧ (sendPage d page).size = d.size ∧
    (sendPage d page).width = d.width ∧ (sendPage d page).height = d.height ∧
    (sendPage d page).inverted = d.inverted ∧ (sendPage d page).frameBuffer = d.frameBuffer :=
  ⟨rfl, rfl, rfl, rfl, rfl, rfl⟩

theorem sendPages_log (ps : List Nat) (d : SSD1306) (hps : ∀ p ∈ ps, p < 8)
    (hlen : 1024 ≤ d.frameBuffer.buffer.length) :
    (ps.foldl sendPage d).i2CInst.log
      = d.i2CInst.log ++ ps.flatMap (pageWrites d.address d.frameBuffer) ∧
    (ps.foldl sendPage d).address = d.address ∧ (ps.foldl sendPage d).size = d.size ∧
    (ps.foldl sendPage d).width = d.width ∧ (ps.foldl sendPage d).height = d.height ∧
    (ps.foldl sendPage d).inverted = d.inverted ∧
    (ps.foldl sendPage d).frameBuffer = d.frameBuffer := by
  induction ps generalizing d with
  | nil => simp
  | cons p t ih =>
    have hp : p < 8 := hps p (List.mem_cons_self _ _)
    have ht : ∀ q ∈ t, q < 8 := fun q hq => hps q (List.mem_cons_of_mem _ hq)
    obtain ⟨ha, hs, hw, hh, hi, hf⟩ := sendPage_frame d p
    have hlen' : 1024 ≤ (sendPage d p).frameBuffer.buffer.length := by rw [hf]; exact hlen
    obtain ⟨i1, i2, i3, i4, i5, i6, i7⟩ := ih (sendPage d p) ht hlen'
    simp only [List.foldl_cons, List.flatMap_cons]
    rw [i1, i2, i3, i4, i5, i6, i7, sendPage_log d p hp hlen, ha, hs, hw, hh, hi, hf,
      List.append_assoc]
    exact ⟨rfl, rfl, rfl, rfl, rfl, rfl, rfl⟩

/-- C6: for a display whose buffer holds at least 1024 bytes, `sendBuffer` appends exactly 32
writes to the bus log, all to the stored device address: for page = 0, 1, ..., 7 in this order
the frames `[0x00, 0xB0 + page]`, `[0x00, 0x02]`, `[0x00, 0x10]`, then a 129-byte write made of
0x40 and the buffer bytes at indices `page * 128 .. page * 128 + 127`. The eight payloads
concatenated are the first 1024 bytes of the buffer, and the buffer (like every field other than
the bus) is unchanged. -/
theorem sendBuffer_trace (d : SSD1306) (hlen : 1024 ≤ d.frameBuffer.buffer.length) :
    (sendBuffer d).i2CInst.log
      = d.i2CInst.log ++ (List.range 8).flatMap (pageWrites d.address d.frameBuffer) ∧
    (sendBuffer d).i2CInst.log.length = d.i2CInst.log.length + 32 ∧
    (∀ page, page < 8 →
      (pageWrites d.address d.frameBuffer page).map (fun w => w.data.length) = [2, 2, 2, 129]) ∧
    (List.range 8).flatMap
        (fun page => (List.range 128).map (fun k => d.frameBuffer.byteAt (page * 128 + k)))
      = d.frameBuffer.buffer.take 1024 ∧
    (sendBuffer d).frameBuffer = d.frameBuffer ∧
    (sendBuffer d).address = d.address ∧ (sendBuffer d).size = d.size ∧
    (sendBuffer d).width = d.width ∧ (sendBuffer d).height = d.height ∧
    (sendBuffer d).inverted = d.inverted := by
  have hr : ∀ p ∈ List.range 8, p < 8 := fun p hp => List.mem_range.mp hp
  obtain ⟨h1, h2, h3, h4, h5, h6, h7⟩ := sendPages_log (List.range 8) d hr hlen
  have hcat : (List.range 8).flatMap
        (fun page => (List.range 128).map (fun k => d.frameBuffer.byteAt (page * 128 + k)))
      = d.frameBuffer.buffer.take 1024 := by
    rw [← slices_concat d.frameBuffer.buffer 128 8]
    apply List.flatMap_congr
    intro p hp
    have hp8 : p < 8 := List.mem_range.mp hp
    exact (slice_eq_map _ _ _ (by omega)).symm
  refine ⟨h1, ?_, ?_, hcat, h7, h2, h3, h4, h5, h6⟩
  · show ((List.range 8).foldl sendPage d).i2CInst.log.length = _
    rw [h1]
    simp [List.length_append, List.range_succ, pageWrites]
  · intro page _
    simp [pageWrites]

/-- Instance of `sendBuffer_trace`: the cleared display sends 32 writes. -/
theorem sendBuffer_trace_witness :
    1024 ≤ (demoDisplay Size.W128xH64).frameBuffer.buffer.length ∧
    (sendBuffer (demoDisplay Size.W128xH64)).i2CInst.log.length
      = (demoDisplay Size.W128xH64).i2CInst.log.length + 32 :=
  ⟨(demoDisplay_wf _).2.2.1,
   (sendBuffer_trace (demoDisplay Size.W128xH64) (demoDisplay_wf _).2.2.1).2.1⟩

/-! ## Bitmap blitting -/

theorem foldl_congr_mem {σ : Type} (l : List Nat) (f g : σ → Nat → σ)
    (h : ∀ a ∈ l, ∀ s, f s a = g s a) (s : σ) : l.foldl f s = l.foldl g s := by
  induction l generalizing s with
  | nil => rfl
  | cons a t ih =>
    simp only [List.foldl_cons]
    rw [h a (List.mem_cons_self _ _) s]
    exact ih (fun b hb => h b (List.mem_cons_of_mem _ hb)) _

theorem foldl_range_blocks {σ : Type} (g : σ → Nat → σ) (k : Nat) (s : σ) :
    (List.range (k * 8)).foldl g s
      = (List.range k).foldl (fun s x => (List.range 8).foldl (fun s z => g s (x * 8 + z)) s) s := by
  induction k generalizing s with
  | zero => simp
  | succ m ih =>
    rw [Nat.succ_mul, List.range_add, List.foldl_append, ih, List.range_succ (n := m),
      List.foldl_append, List.foldl_map]
    simp only [List.foldl_cons, List.foldl_nil]

theorem foldl_filter_map {σ α : Type} (l : List Nat) (p : Nat → Bool) (f : Nat → α)
    (g : σ → α → σ) (s : σ) :
    ((l.filter p).map f).foldl g s = l.foldl (fun s c => if p c = true then g s (f c) else s) s := by
  induction l generalizing s with
  | nil => rfl
  | cons a t ih =>
    by_cases hp : p a = true
    · simp only [List.filter_cons, hp, if_true, List.map_cons, List.foldl_cons]
      exact ih _
    · simp only [List.filter_cons, hp, if_false, List.foldl_cons]
      exact ih _

theorem foldl_flatMap_eq {σ α : Type} (l : List Nat) (F : Nat → List α) (g : σ → α → σ) (s : σ) :
    (l.flatMap F).foldl g s = l.foldl (fun s r => (F r).foldl g s) s := by
  induction l generalizing s with
  | nil => rfl
  | cons a t ih =>
    simp only [List.flatMap_cons, List.foldl_append, List.foldl_cons]
    exact ih _

theorem shift_and_one (byte n : Nat) : ((byte >>> n) &&& 1 ≠ 0) ↔ byte.testBit n = true := by
  unfold Nat.testBit
  rw [Nat.land_comm]
  simp

/-- Shared core of the blitting results: `addBitmapImage` with the row width rounded down to a
multiple of 8 replays the set source bits in row-major order. -/
theorem addBitmapImage_eq_blitPixels (d : SSD1306) (anchorX anchorY : Int)
    (image_width image_height : Nat) (image : List Nat) (mode : WriteMode)
    (h8 : image_width % 8 = 0) :
    addBitmapImage d anchorX anchorY image_width image_height image mode
      = blitPixels d anchorX anchorY mode (setSourceBits image_width image_height image) := by
  have hw : image_width = (image_width / 8) * 8 := by omega
  unfold addBitmapImage blitPixels setSourceBits
  rw [foldl_flatMap_eq]
  apply foldl_congr_mem
  intro r _ s
  rw [foldl_filter_map]
  conv => rhs; rw [hw]
  rw [foldl_range_blocks]
  rw [← hw]
  apply foldl_congr_mem
  intro x _ s
  unfold blitByte
  apply foldl_congr_mem
  intro z hz s
  have hz8 : z < 8 := List.mem_range.mp hz
  have e1 : (x * 8 + z) / 8 = x := by omega
  have e2 : (x * 8 + z) % 8 = z := by omega
  simp only [sourceBit, e1, e2, shift_and_one]
  rw [add_comm ((x * 8 + z : Nat) : Int) anchorX, add_comm (r : Int) anchorY]

theorem setPixel_fields (d : SSD1306) (x y : Int) (mode : WriteMode) :
    (setPixel d x y mode).i2CInst = d.i2CInst ∧ (setPixel d x y mode).address = d.address ∧
    (setPixel d x y mode).size = d.size ∧ (setPixel d x y mode).width = d.width ∧
    (setPixel d x y mode).height = d.height ∧ (setPixel d x y mode).inverted = d.inverted := by
  unfold setPixel
  split
  · exact ⟨rfl, rfl, rfl, rfl, rfl, rfl⟩
  · cases mode <;> exact ⟨rfl, rfl, rfl, rfl, rfl, rfl⟩

theorem setPixel_byteAt (d : SSD1306) (x y : Nat) (mode : WriteMode) (hwf : d.wf)
    (hx : x < 128) (hy : y < heightOf d.size) (i : Nat) :
    (setPixel d x y mode).frameBuffer.byteAt i
      = if i = pixelOffset d.size 128 x y then
          modeByte mode (d.frameBuffer.byteAt (pixelOffset d.size 128 x y)) (pixelMask d.size y)
        else d.frameBuffer.byteAt i := by
  have hoff : pixelOffset d.size 128 x y < d.frameBuffer.buffer.length :=
    lt_of_lt_of_le (pixelOffset_lt d.size x y hx hy)
      (by simpa [PAGES, PAGE_BYTES] using hwf.2.2.1)
  rw [setPixel_eq d x y mode hwf hx hy]
  exact byteAt_set _ _ _ _ hoff

theorem setPixel_wf (d : SSD1306) (x y : Int) (mode : WriteMode) (hwf : d.wf) :
    (setPixel d x y mode).wf := by
  by_cases hout : x < 0 ∨ x ≥ d.width ∨ y < 0 ∨ y ≥ d.height
  · have : setPixel d x y mode = d := by unfold setPixel; rw [if_pos hout]
    rw [this]; exact hwf
  · obtain ⟨hw, hh, hlen, hb⟩ := hwf
    have hx0 : 0 ≤ x := by omega
    have hy0 : 0 ≤ y := by omega
    obtain ⟨xn, rfl⟩ := Int.eq_ofNat_of_zero_le hx0
    obtain ⟨yn, rfl⟩ := Int.eq_ofNat_of_zero_le hy0
    have hx : xn < 128 := by rw [hw] at hout; omega
    have hy : yn < heightOf d.size := by rw [hh] at hout; omega
    have hwf : d.wf := ⟨hw, hh, hlen, hb⟩
    rw [setPixel_eq d xn yn mode hwf hx hy]
    refine ⟨hw, hh, ?_, ?_⟩
    · simpa using hlen
    · intro b hmem
      rcases List.mem_or_eq_of_mem_set hmem with h | h
      · exact hb b h
      · rw [h]
        exact modeByte_lt mode _ _ (byteAt_lt d hwf _) (pixelMask_lt _ _)

theorem setPixel_length (d : SSD1306) (x y : Int) (mode : WriteMode) :
    (setPixel d x y mode).frameBuffer.buffer.length = d.frameBuffer.buffer.length := by
  unfold setPixel
  split
  · rfl
  · cases mode
    · simp only [FrameBuffer.byteOR]; split <;> simp
    · simp only [FrameBuffer.byteAND]; split <;> simp
    · simp only [FrameBuffer.byteXOR]; split <;> simp

theorem ext_of_byteAt (l1 l2 : List Nat) (hlen : l1.length = l2.length)
    (h : ∀ i, (FrameBuffer.mk l1).byteAt i = (FrameBuffer.mk l2).byteAt i) : l1 = l2 := by
  apply List.ext_getElem hlen
  intro i h1 h2
  have := h i
  simp only [FrameBuffer.byteAt, List.getD_eq_getElem?_getD, List.getElem?_eq_getElem h1,
    List.getElem?_eq_getElem h2, Option.getD_some] at this
  exact this

/-- Row 0 written with mode ADD, column by column. -/
theorem addRow_byteAt (cs : List Nat) (d : SSD1306) (hwf : d.wf) (hcs : ∀ c ∈ cs, c < 128) :
    (cs.foldl (fun (d : SSD1306) (c : Nat) => setPixel d (c : Int) 0 ADD) d).wf ∧
    (cs.foldl (fun (d : SSD1306) (c : Nat) => setPixel d (c : Int) 0 ADD) d).size = d.size ∧
    (cs.foldl (fun (d : SSD1306) (c : Nat) => setPixel d (c : Int) 0 ADD) d).frameBuffer.buffer.length
      = d.frameBuffer.buffer.length ∧
    ∀ i, (cs.foldl (fun (d : SSD1306) (c : Nat) => setPixel d (c : Int) 0 ADD) d).frameBuffer.byteAt i
      = if i ∈ cs then d.frameBuffer.byteAt i ||| pixelMask d.size 0 else d.frameBuffer.byteAt i := by
  induction cs generalizing d with
  | nil => simp [hwf]
  | cons c t ih =>
    have hc : c < 128 := hcs c (List.mem_cons_self _ _)
    have ht : ∀ q ∈ t, q < 128 := fun q hq => hcs q (List.mem_cons_of_mem _ hq)
    have hwf' := setPixel_wf d (c : Int) 0 ADD hwf
    have hsz : (setPixel d (c : Int) 0 ADD).size = d.size := (setPixel_fields d _ _ _).2.2.1
    have h0 : 0 < heightOf d.size := by unfold heightOf; split <;> decide
    obtain ⟨i1, i2, i3, i4⟩ := ih (setPixel d (c : Int) 0 ADD) hwf' ht
    refine ⟨i1, i2.trans hsz, i3.trans (setPixel_length _ _ _ _), ?_⟩
    intro i
    rw [List.foldl_cons, i4 i, hsz]
    have hb := setPixel_byteAt d c 0 ADD hwf hc h0 i
    have hoff : pixelOffset d.size 128 c 0 = c := by
      rw [pixelOffset_eq]; split <;> simp
    rw [hoff] at hb
    rw [show ((0 : Int)) = ((0 : Nat) : Int) from rfl, hb]
    simp only [modeByte, List.mem_cons]
    by_cases hic : i = c
    · subst hic
      by_cases hit : i ∈ t
      · simp [hit, Nat.or_assoc]
      · simp [hit]
    · simp [hic]

theorem mem_setSourceBits (image_width image_height : Nat) (image : List Nat) (r c : Nat) :
    (r, c) ∈ setSourceBits image_width image_height image
      ↔ r < image_height ∧ c < image_width ∧
        (image.getD (r * (image_width / 8) + c / 8) 0).testBit (7 - c % 8) = true := by
  simp only [setSourceBits, List.mem_flatMap, List.mem_map, List.mem_filter, List.mem_range,
    sourceBit, Prod.mk.injEq]
  constructor
  · rintro ⟨r', hr, c', ⟨hc, hb⟩, rfl, rfl⟩
    exact ⟨hr, hc, hb⟩
  · rintro ⟨hr, hc, hb⟩
    exact ⟨r, hr, c, ⟨hc, hb⟩, rfl, rfl⟩

theorem setSourceBits_sorted (image_width image_height : Nat) (image : List Nat) :
    (setSourceBits image_width image_height image).Pairwise
      (fun p q => p.1 < q.1 ∨ (p.1 = q.1 ∧ p.2 < q.2)) := by
  unfold setSourceBits
  rw [List.pairwise_flatMap]
  constructor
  · intro r _
    rw [List.pairwise_map]
    apply List.Pairwise.imp _ ((List.pairwise_lt_range image_width).filter _)
    intro a b hab
    exact Or.inr ⟨rfl, hab⟩
  · apply List.Pairwise.imp _ (List.pairwise_lt_range image_height)
    intro r1 r2 h12 p hp q hq
    simp only [List.mem_map] at hp hq
    obtain ⟨_, _, rfl⟩ := hp
    obtain ⟨_, _, rfl⟩ := hq
    exact Or.inl h12

theorem row_bytes_byteAt (m n i : Nat) :
    (FrameBuffer.mk (List.replicate 8 m ++ List.replicate n 0)).byteAt i
      = if i < 8 then m else 0 := by
  unfold FrameBuffer.byteAt
  rw [List.getD_eq_getElem?_getD]
  by_cases hi : i < 8
  · rw [List.getElem?_append_left (by simpa using hi), List.getElem?_replicate]
    simp [hi]
  · rw [List.getElem?_append_right (by simpa using hi), List.getElem?_replicate]
    simp only [hi, if_false]
    split <;> rfl

theorem stamp_row_bytes (d : SSD1306) (hwf : d.wf) :
    (addBitmapImage (clear d) 0 0 8 1 [0xFF] ADD).frameBuffer.buffer
      = List.replicate 8 (if d.size = Size.W128xH32 then 3 else 1)
          ++ List.replicate (d.frameBuffer.buffer.length - 8) 0 := by
  have hcw := clear_wf d hwf
  have hbits : setSourceBits 8 1 [0xFF]
      = [(0, 0), (0, 1), (0, 2), (0, 3), (0, 4), (0, 5), (0, 6), (0, 7)] := by decide
  have hfold : blitPixels (clear d) 0 0 ADD
        [(0, 0), (0, 1), (0, 2), (0, 3), (0, 4), (0, 5), (0, 6), (0, 7)]
      = [0, 1, 2, 3, 4, 5, 6, 7].foldl
          (fun (d : SSD1306) (c : Nat) => setPixel d (c : Int) 0 ADD) (clear d) := rfl
  rw [addBitmapImage_eq_blitPixels _ _ _ _ _ _ _ (by decide), hbits, hfold]
  obtain ⟨_, _, hl, hb⟩ := addRow_byteAt [0, 1, 2, 3, 4, 5, 6, 7] (clear d) hcw (by decide)
  have hlen : 1024 ≤ d.frameBuffer.buffer.length := by
    simpa [PAGES, PAGE_BYTES] using hwf.2.2.1
  have hcl : (clear d).frameBuffer.buffer.length = d.frameBuffer.buffer.length := by
    simp [clear, FrameBuffer.clear]
  have hm : pixelMask (clear d).size 0 = if d.size = Size.W128xH32 then 3 else 1 := by
    show pixelMask d.size 0 = _
    cases d.size <;> decide
  apply ext_of_byteAt
  · rw [hl, hcl]; simp; omega
  · intro i
    have hz : (clear d).frameBuffer.byteAt i = 0 := by
      show (List.replicate d.frameBuffer.buffer.length 0).getD i 0 = 0
      rw [List.getD_eq_getElem?_getD, List.getElem?_replicate]
      split <;> rfl
    rw [row_bytes_byteAt]
    show ([0, 1, 2, 3, 4, 5, 6, 7].foldl
          (fun (d : SSD1306) (c : Nat) => setPixel d (c : Int) 0 ADD) (clear d)).frameBuffer.byteAt i = _
    rw [hb i, hz, hm, Nat.zero_or]
    have hmem : i ∈ [0, 1, 2, 3, 4, 5, 6, 7] ↔ i < 8 := by
      simp only [List.mem_cons, List.mem_singleton, List.not_mem_nil, or_false]; omega
    by_cases hi : i < 8
    · rw [if_pos (hmem.mpr hi), if_pos hi]
    · rw [if_neg (fun h => hi (hmem.mp h)), if_neg hi]

/-- C7: for every display, anchor, write mode, source array and every `image_width` that is a
multiple of 8, `addBitmapImage` yields the display obtained by one `setPixel` call at
`(anchorX + c, anchorY + r)` (converted to the `int16_t` parameters) per set source bit, taken
in row-major order; the set source bits are exactly the `(r, c)` with `r < image_height`,
`c < image_width` and bit `7 - c % 8` of byte `r * (image_width / 8) + c / 8` set, listed in
strictly increasing row-major order. With mode ADD, the one-byte source 0xFF of size 8x1 at
anchor (0, 0) on the cleared buffer of a constructed display makes bytes 0..7 equal to 0x01
(full height, 8 set bits in all) or 0x03 (half height, 16 set bits in all) and leaves every
other byte 0. -/
theorem addBitmapImage_replays_set_bits :
    (∀ (d : SSD1306) (anchorX anchorY : Int) (image_width image_height : Nat)
        (image : List Nat) (mode : WriteMode), image_width % 8 = 0 →
      addBitmapImage d anchorX anchorY image_width image_height image mode
        = blitPixels d anchorX anchorY mode (setSourceBits image_width image_height image)) ∧
    (∀ (image_width image_height : Nat) (image : List Nat) (r c : Nat),
      (r, c) ∈ setSourceBits image_width image_height image
        ↔ r < image_height ∧ c < image_width ∧
          (image.getD (r * (image_width / 8) + c / 8) 0).testBit (7 - c % 8) = true) ∧
    (∀ (image_width image_height : Nat) (image : List Nat),
      (setSourceBits image_width image_height image).Pairwise
        (fun p q => p.1 < q.1 ∨ (p.1 = q.1 ∧ p.2 < q.2))) ∧
    (∀ (d : SSD1306), d.wf →
      (addBitmapImage (clear d) 0 0 8 1 [0xFF] ADD).frameBuffer.buffer
        = List.replicate 8 (if d.size = Size.W128xH32 then 3 else 1)
            ++ List.replicate (d.frameBuffer.buffer.length - 8) 0 ∧
      bufferBits (addBitmapImage (clear d) 0 0 8 1 [0xFF] ADD).frameBuffer.buffer
        = if d.size = Size.W128xH32 then 16 else 8) := by
  refine ⟨addBitmapImage_eq_blitPixels, mem_setSourceBits, setSourceBits_sorted, ?_⟩
  intro d hwf
  refine ⟨stamp_row_bytes d hwf, ?_⟩
  rw [stamp_row_bytes d hwf]
  have h0 : popCount8 0 = 0 := by decide
  have h1 : popCount8 1 = 1 := by decide
  have h3 : popCount8 3 = 2 := by decide
  unfold bufferBits
  rw [List.map_append, List.sum_append, List.map_replicate, List.map_replicate,
    List.sum_replicate, List.sum_replicate, h0]
  split <;> simp [h1, h3]

/-- Instance of `addBitmapImage_replays_set_bits`: a 16x2 bitmap drawn with INVERT at anchor
(120, 31) on the full-height display, and the 8x1 stamp on the half-height display. -/
theorem addBitmapImage_replays_set_bits_witness :
    16 % 8 = 0 ∧
    addBitmapImage (demoDisplay Size.W128xH64) 120 31 16 2 [0x81, 0xFF, 0x00, 0x01] INVERT
      = blitPixels (demoDisplay Size.W128xH64) 120 31 INVERT
          (setSourceBits 16 2 [0x81, 0xFF, 0x00, 0x01]) ∧
    (demoDisplay Size.W128xH32).wf ∧
    bufferBits (addBitmapImage (clear (demoDisplay Size.W128xH32)) 0 0 8 1 [0xFF] ADD).frameBuffer.buffer
      = 16 :=
  ⟨by decide,
   addBitmapImage_replays_set_bits.1 (demoDisplay Size.W128xH64) 120 31 16 2
     [0x81, 0xFF, 0x00, 0x01] INVERT (by decide),
   demoDisplay_wf _,
   (addBitmapImage_replays_set_bits.2.2.2 (demoDisplay Size.W128xH32) (demoDisplay_wf _)).2⟩

theorem setPixel_bit_frame (d : SSD1306) (x y : Int) (mode : WriteMode) (hwf : d.wf) (i j : Nat)
    (h : ¬ (0 ≤ x ∧ x < 128 ∧ 0 ≤ y ∧ y < heightOf d.size ∧
            pixelOffset d.size 128 x.toNat y.toNat = i ∧
            (pixelMask d.size y.toNat).testBit j = true)) :
    ((setPixel d x y mode).frameBuffer.byteAt i).testBit j
      = (d.frameBuffer.byteAt i).testBit j := by
  by_cases hin : 0 ≤ x ∧ x < 128 ∧ 0 ≤ y ∧ y < heightOf d.size
  · obtain ⟨hx0, hx1, hy0, hy1⟩ := hin
    obtain ⟨xn, rfl⟩ := Int.eq_ofNat_of_zero_le hx0
    obtain ⟨yn, rfl⟩ := Int.eq_ofNat_of_zero_le hy0
    have hx : xn < 128 := by omega
    have hy : yn < heightOf d.size := by omega
    simp only [Int.toNat_ofNat] at h
    rw [setPixel_byteAt d xn yn mode hwf hx hy i]
    by_cases hi : i = pixelOffset d.size 128 xn yn
    · rw [if_pos hi, ← hi]
      have hbit : (pixelMask d.size yn).testBit j = false := by
        cases hb : (pixelMask d.size yn).testBit j
        · rfl
        · exact absurd ⟨hx0, hx1, hy0, hy1, hi.symm, hb⟩ h
      exact modeByte_testBit_out mode _ _ j (byteAt_lt d hwf i) hbit
    · rw [if_neg hi]
  · have hout : x < 0 ∨ x ≥ 128 ∨ y < 0 ∨ y ≥ heightOf d.size := by omega
    rw [(setPixel_out_of_bounds_eq d x y mode hwf.1 hwf.2.1 hout)]

theorem blitPixels_bit_frame (ps : List (Nat × Nat)) (d : SSD1306) (anchorX anchorY : Int)
    (mode : WriteMode) (hwf : d.wf) (i j : Nat)
    (h : ∀ p ∈ ps,
      ¬ (0 ≤ toInt16 (anchorX + (p.2 : Nat)) ∧ toInt16 (anchorX + (p.2 : Nat)) < 128 ∧
         0 ≤ toInt16 (anchorY + (p.1 : Nat)) ∧
         toInt16 (anchorY + (p.1 : Nat)) < heightOf d.size ∧
         pixelOffset d.size 128 (toInt16 (anchorX + (p.2 : Nat))).toNat
           (toInt16 (anchorY + (p.1 : Nat))).toNat = i ∧
         (pixelMask d.size (toInt16 (anchorY + (p.1 : Nat))).toNat).testBit j = true)) :
    ((blitPixels d anchorX anchorY mode ps).frameBuffer.byteAt i).testBit j
      = (d.frameBuffer.byteAt i).testBit j := by
  induction ps generalizing d with
  | nil => rfl
  | cons p t ih =>
    have hp := h p (List.mem_cons_self _ _)
    have hwf' := setPixel_wf d (toInt16 (anchorX + (p.2 : Nat))) (toInt16 (anchorY + (p.1 : Nat)))
      mode hwf
    have hsz : (setPixel d (toInt16 (anchorX + (p.2 : Nat))) (toInt16 (anchorY + (p.1 : Nat)))
        mode).size = d.size := (setPixel_fields d _ _ _).2.2.1
    have ht := ih (setPixel d (toInt16 (anchorX + (p.2 : Nat)))
      (toInt16 (anchorY + (p.1 : Nat))) mode) hwf'
      (by rw [hsz]; exact fun q hq => h q (List.mem_cons_of_mem _ hq))
    unfold blitPixels at ht ⊢
    rw [List.foldl_cons, ht]
    exact setPixel_bit_frame d _ _ mode hwf i j hp

theorem pixelMask_testBit (size : Size) (y j : Nat) (hy : y < heightOf size)
    (h : (pixelMask size y).testBit j = true) :
    j < 8 ∧ (size = Size.W128xH64 → j = y % 8) ∧ (size = Size.W128xH32 → j / 2 = y % 4) := by
  have hj8 : j < 8 := by
    by_contra hge
    have : (pixelMask size y).testBit j = false :=
      Nat.testBit_lt_two_pow
        (lt_of_lt_of_le (pixelMask_lt size y)
          (Nat.pow_le_pow_right (n := 2) (by decide) (by omega : 8 ≤ j)))
    rw [this] at h
    exact Bool.noConfusion h
  refine ⟨hj8, ?_, ?_⟩
  · intro hs
    subst hs
    have hall : ∀ y : Nat, y < 64 → ∀ j : Nat, j < 8 →
        (pixelMask Size.W128xH64 y).testBit j = true → j = y % 8 := by decide
    exact hall y hy j hj8 h
  · intro hs
    subst hs
    have hall : ∀ y : Nat, y < 32 → ∀ j : Nat, j < 8 →
        (pixelMask Size.W128xH32 y).testBit j = true → j / 2 = y % 4 := by decide
    exact hall y hy j hj8 h

/-- Two in-bounds pixels whose masks share a bit of the same byte are the same pixel. -/
theorem pixel_bit_inj (size : Size) (x1 y1 x2 y2 j : Nat) (hx1 : x1 < 128) (hx2 : x2 < 128)
    (hy1 : y1 < heightOf size) (hy2 : y2 < heightOf size)
    (hoff : pixelOffset size 128 x1 y1 = pixelOffset size 128 x2 y2)
    (h1 : (pixelMask size y1).testBit j = true) (h2 : (pixelMask size y2).testBit j = true) :
    x1 = x2 ∧ y1 = y2 := by
  obtain ⟨_, a1, b1⟩ := pixelMask_testBit size y1 j hy1 h1
  obtain ⟨_, a2, b2⟩ := pixelMask_testBit size y2 j hy2 h2
  rw [pixelOffset_eq, pixelOffset_eq] at hoff
  cases size
  · have e1 := a1 rfl
    have e2 := a2 rfl
    simp only [if_neg (by decide : ¬ Size.W128xH64 = Size.W128xH32)] at hoff
    omega
  · have e1 := b1 rfl
    have e2 := b2 rfl
    simp only [if_pos] at hoff
    omega

theorem foldl_id {σ : Type} (l : List Nat) (s : σ) : l.foldl (fun s _ => s) s = s := by
  induction l with
  | nil => rfl
  | cons a t ih => exact ih

theorem blitByte_zero (anchorX anchorY : Int) (mode : WriteMode) (y x : Nat) (d : SSD1306) :
    blitByte anchorX anchorY mode y x 0 d = d := by
  unfold blitByte
  rw [foldl_congr_mem (List.range 8) _ (fun s _ => s)]
  · exact foldl_id _ _
  · intro z _ s
    simp

/-- C8: for a constructed display, every write mode (SUBTRACT included), every anchor and every
source bitmap whose width is a multiple of 8: (1) `addBitmapImage` leaves unchanged every bit
`j` of every byte `i` that is not a mask bit of an in-bounds anchored pixel under a set source
bit; (2) for `uint8_t` dimensions, every mask bit of an in-bounds anchored pixel under an unset
source bit keeps its value; (3) a source whose bytes are all zero leaves the whole display
record unchanged. -/
theorem addBitmapImage_frame :
    (∀ (d : SSD1306) (anchorX anchorY : Int) (image_width image_height : Nat)
        (image : List Nat) (mode : WriteMode) (i j : Nat), d.wf → image_width % 8 = 0 →
      (∀ r c, r < image_height → c < image_width → sourceBit image_width image r c = true →
        ¬ (0 ≤ toInt16 (anchorX + (c : Nat)) ∧ toInt16 (anchorX + (c : Nat)) < 128 ∧
           0 ≤ toInt16 (anchorY + (r : Nat)) ∧
           toInt16 (anchorY + (r : Nat)) < heightOf d.size ∧
           pixelOffset d.size 128 (toInt16 (anchorX + (c : Nat))).toNat
             (toInt16 (anchorY + (r : Nat))).toNat = i ∧
           (pixelMask d.size (toInt16 (anchorY + (r : Nat))).toNat).testBit j = true)) →
      ((addBitmapImage d anchorX anchorY image_width image_height image mode).frameBuffer.byteAt
          i).testBit j
        = (d.frameBuffer.byteAt i).testBit j) ∧
    (∀ (d : SSD1306) (anchorX anchorY : Int) (image_width image_height : Nat)
        (image : List Nat) (mode : WriteMode) (r0 c0 j : Nat), d.wf → image_width % 8 = 0 →
      image_width < 256 → image_height < 256 → r0 < image_height → c0 < image_width →
      sourceBit image_width image r0 c0 = false →
      0 ≤ toInt16 (anchorX + (c0 : Nat)) → toInt16 (anchorX + (c0 : Nat)) < 128 →
      0 ≤ toInt16 (anchorY + (r0 : Nat)) → toInt16 (anchorY + (r0 : Nat)) < heightOf d.size →
      (pixelMask d.size (toInt16 (anchorY + (r0 : Nat))).toNat).testBit j = true →
      ((addBitmapImage d anchorX anchorY image_width image_height image mode).frameBuffer.byteAt
          (pixelOffset d.size 128 (toInt16 (anchorX + (c0 : Nat))).toNat
            (toInt16 (anchorY + (r0 : Nat))).toNat)).testBit j
        = (d.frameBuffer.byteAt
          (pixelOffset d.size 128 (toInt16 (anchorX + (c0 : Nat))).toNat
            (toInt16 (anchorY + (r0 : Nat))).toNat)).testBit j) ∧
    (∀ (d : SSD1306) (anchorX anchorY : Int) (image_width image_height : Nat)
        (image : List Nat) (mode : WriteMode), (∀ b ∈ image, b = 0) →
      addBitmapImage d anchorX anchorY image_width image_height image mode = d) := by
  have part1 : ∀ (d : SSD1306) (anchorX anchorY : Int) (image_width image_height : Nat)
        (image : List Nat) (mode : WriteMode) (i j : Nat), d.wf → image_width % 8 = 0 →
      (∀ r c, r < image_height → c < image_width → sourceBit image_width image r c = true →
        ¬ (0 ≤ toInt16 (anchorX + (c : Nat)) ∧ toInt16 (anchorX + (c : Nat)) < 128 ∧
           0 ≤ toInt16 (anchorY + (r : Nat)) ∧
           toInt16 (anchorY + (r : Nat)) < heightOf d.size ∧
           pixelOffset d.size 128 (toInt16 (anchorX + (c : Nat))).toNat
             (toInt16 (anchorY + (r : Nat))).toNat = i ∧
           (pixelMask d.size (toInt16 (anchorY + (r : Nat))).toNat).testBit j = true)) →
      ((addBitmapImage d anchorX anchorY image_width image_height image mode).frameBuffer.byteAt
          i).testBit j
        = (d.frameBuffer.byteAt i).testBit j := by
    intro d anchorX anchorY image_width image_height image mode i j hwf h8 hfree
    rw [addBitmapImage_eq_blitPixels d anchorX anchorY image_width image_height image mode h8]
    apply blitPixels_bit_frame _ d anchorX anchorY mode hwf i j
    rintro ⟨r, c⟩ hp
    obtain ⟨hr, hc, hb⟩ := (mem_setSourceBits image_width image_height image r c).mp hp
    exact hfree r c hr hc hb
  refine ⟨part1, ?_, ?_⟩
  · intro d anchorX anchorY image_width image_height image mode r0 c0 j hwf h8 hw hh hr0 hc0
      hbit0 hx0 hx1 hy0 hy1 hm0
    apply part1 d anchorX anchorY image_width image_height image mode _ j hwf h8
    intro r c hr hc hbit hcontra
    obtain ⟨gx0, gx1, gy0, gy1, goff, gm⟩ := hcontra
    have hinj := pixel_bit_inj d.size (toInt16 (anchorX + (c : Nat))).toNat
      (toInt16 (anchorY + (r : Nat))).toNat (toInt16 (anchorX + (c0 : Nat))).toNat
      (toInt16 (anchorY + (r0 : Nat))).toNat j (by omega) (by omega) (by omega) (by omega)
      goff gm hm0
    have hc' : c = c0 := by
      have := hinj.1
      unfold toInt16 at this gx0 hx0
      omega
    have hr' : r = r0 := by
      have := hinj.2
      unfold toInt16 at this gy0 hy0
      omega
    rw [hc', hr', hbit0] at hbit
    exact Bool.noConfusion hbit
  · intro d anchorX anchorY image_width image_height image mode hz
    have hget : ∀ k, image.getD k 0 = 0 := by
      intro k
      rw [List.getD_eq_getElem?_getD]
      cases hk : image[k]? with
      | none => rfl
      | some b => exact hz b (List.getElem?_mem hk)
    unfold addBitmapImage
    rw [foldl_congr_mem (List.range image_height) _ (fun s _ => s)]
    · exact foldl_id _ _
    · intro y _ s
      rw [foldl_congr_mem (List.range (image_width / 8)) _ (fun s _ => s)]
      · exact foldl_id _ _
      · intro x _ s
        simp only [hget]
        exact blitByte_zero _ _ _ _ _ _

/-- Instance of `addBitmapImage_frame`: an 8x1 source 0x80 drawn with SUBTRACT at (0, 0) on
the full-height display leaves bit 0 of byte 1 (the pixel under the unset source bit of
column 1) as it was. -/
theorem addBitmapImage_frame_witness :
    (demoDisplay Size.W128xH64).wf ∧ 8 % 8 = 0 ∧ sourceBit 8 [0x80] 0 1 = false ∧
    ((addBitmapImage (demoDisplay Size.W128xH64) 0 0 8 1 [0x80] SUBTRACT).frameBuffer.byteAt
        (pixelOffset (demoDisplay Size.W128xH64).size 128 (toInt16 (0 + (1 : Nat))).toNat
          (toInt16 (0 + (0 : Nat))).toNat)).testBit 0
      = ((demoDisplay Size.W128xH64).frameBuffer.byteAt
        (pixelOffset (demoDisplay Size.W128xH64).size 128 (toInt16 (0 + (1 : Nat))).toNat
          (toInt16 (0 + (0 : Nat))).toNat)).testBit 0 :=
  ⟨demoDisplay_wf _, by decide, by decide,
   addBitmapImage_frame.2.1 (demoDisplay Size.W128xH64) 0 0 8 1 [0x80] SUBTRACT 0 1 0
     (demoDisplay_wf _) (by decide) (by decide) (by decide) (by decide) (by decide) (by decide)
     (by decide) (by decide) (by decide) (by decide) (by decide)⟩

/-! ## Malformed input and bus failures -/

theorem addBitmapImage_width_round (d : SSD1306) (anchorX anchorY : Int)
    (image_width image_height : Nat) (image : List Nat) (mode : WriteMode) :
    addBitmapImage d anchorX anchorY image_width image_height image mode
      = addBitmapImage d anchorX anchorY (8 * (image_width / 8)) image_height image mode := by
  have h : 8 * (image_width / 8) / 8 = image_width / 8 := by omega
  unfold addBitmapImage
  rw [h]

set_option maxRecDepth 100000 in
/-- C9 as stated fails: a 12x2 bitmap (12 is not a multiple of 8) whose first row is all ones
and whose second row is empty, packed two bytes per row, is not rejected. The call changes the
buffer exactly as the call with width 8 does, and the second source byte is read as row 1:
bytes 0..3 end up 0x03, bytes 4..7 end up 0x01, columns 8..11 are not drawn. -/
theorem addBitmapImage_accepts_ragged_width :
    12 % 8 ≠ 0 ∧
    addBitmapImage (demoDisplay Size.W128xH64) 0 0 12 2 [0xFF, 0xF0, 0x00, 0x00] ADD
      = addBitmapImage (demoDisplay Size.W128xH64) 0 0 8 2 [0xFF, 0xF0, 0x00, 0x00] ADD ∧
    (demoDisplay Size.W128xH64).frameBuffer.buffer.take 12 = [0, 0, 0, 0, 0, 0, 0, 0, 0, 0, 0, 0] ∧
    (addBitmapImage (demoDisplay Size.W128xH64) 0 0 12 2 [0xFF, 0xF0, 0x00, 0x00]
        ADD).frameBuffer.buffer.take 12 = [3, 3, 3, 3, 1, 1, 1, 1, 0, 0, 0, 0] ∧
    addBitmapImage (demoDisplay Size.W128xH64) 0 0 12 2 [0xFF, 0xF0, 0x00, 0x00] ADD
      ≠ demoDisplay Size.W128xH64 := by
  have h4 : (addBitmapImage (demoDisplay Size.W128xH64) 0 0 12 2 [0xFF, 0xF0, 0x00, 0x00]
        ADD).frameBuffer.buffer.take 12 = [3, 3, 3, 3, 1, 1, 1, 1, 0, 0, 0, 0] := by decide
  have h3 : (demoDisplay Size.W128xH64).frameBuffer.buffer.take 12
      = [0, 0, 0, 0, 0, 0, 0, 0, 0, 0, 0, 0] := by decide
  refine ⟨by decide, addBitmapImage_width_round _ _ _ _ _ _ _, h3, h4, ?_⟩
  intro heq
  rw [heq, h3] at h4
  exact absurd h4 (by decide)

/-- C9 as amended: `addBitmapImage` rejects nothing and reports nothing; for every
`image_width`, multiple of 8 or not, the call has exactly the effect of the call with the width
rounded down to `8 * (image_width / 8)` on the same source array: it replays the set bits of
the first `image_width / 8` bytes of each row, rows being `image_width / 8` bytes apart, and
draws none of the trailing `image_width % 8` columns. -/
theorem addBitmapImage_rounds_width_down (d : SSD1306) (anchorX anchorY : Int)
    (image_width image_height : Nat) (image : List Nat) (mode : WriteMode) :
    addBitmapImage d anchorX anchorY image_width image_height image mode
      = addBitmapImage d anchorX anchorY (8 * (image_width / 8)) image_height image mode ∧
    addBitmapImage d anchorX anchorY image_width image_height image mode
      = blitPixels d anchorX anchorY mode
          (setSourceBits (8 * (image_width / 8)) image_height image) := by
  have h := addBitmapImage_width_round d anchorX anchorY image_width image_height image mode
  refine ⟨h, ?_⟩
  rw [h]
  exact addBitmapImage_eq_blitPixels _ _ _ _ _ _ _ (by omega)

theorem agree_cmd (d1 d2 : SSD1306) (command : Nat) (h : agreeUpToOutcomes d1 d2) :
    agreeUpToOutcomes (cmd d1 command) (cmd d2 command) := by
  obtain ⟨h1, h2, h3, h4, h5, h6, h7⟩ := h
  refine ⟨?_, h2, h3, h4, h5, h6, h7⟩
  rw [cmd_log, cmd_log, h1, h2]

theorem agree_sendPage (d1 d2 : SSD1306) (page : Nat) (h : agreeUpToOutcomes d1 d2) :
    agreeUpToOutcomes (sendPage d1 page) (sendPage d2 page) := by
  have h3 := agree_cmd _ _ 0x10 (agree_cmd _ _ 0x02 (agree_cmd _ _ (toUInt8 (0xB0 + page)) h))
  obtain ⟨g1, g2, g3, g4, g5, g6, g7⟩ := h3
  refine ⟨?_, g2, g3, g4, g5, g6, g7⟩
  unfold sendPage
  simp only [i2c_write_blocking_log]
  rw [g1, g2, g7]

theorem agree_sendPages (ps : List Nat) (d1 d2 : SSD1306) (h : agreeUpToOutcomes d1 d2) :
    agreeUpToOutcomes (ps.foldl sendPage d1) (ps.foldl sendPage d2) := by
  induction ps generalizing d1 d2 with
  | nil => exact h
  | cons p t ih => exact ih _ _ (agree_sendPage d1 d2 p h)

theorem sendPage_log_length (d : SSD1306) (page : Nat) :
    (sendPage d page).i2CInst.log.length = d.i2CInst.log.length + 4 := by
  unfold sendPage
  simp only [i2c_write_blocking_log, cmd_log, List.length_append, List.length_singleton]

theorem sendPages_log_length (ps : List Nat) (d : SSD1306) :
    (ps.foldl sendPage d).i2CInst.log.length = d.i2CInst.log.length + 4 * ps.length := by
  induction ps generalizing d with
  | nil => rfl
  | cons p t ih =>
    rw [List.foldl_cons, ih, sendPage_log_length, List.length_cons]
    omega

set_option maxRecDepth 1000000 in
/-- C10 as stated fails: on a transport whose first write fails, `cmd` and `sendBuffer` end in
the same state as on a transport where every write succeeds, and `sendBuffer` still attempts
all 32 writes, 31 of them after the failed one. -/
theorem bus_failure_not_surfaced :
    (i2c_write_blocking (withOutcomes (demoDisplay Size.W128xH64) [false]).i2CInst
        (withOutcomes (demoDisplay Size.W128xH64) [false]).address [0x00, 0xAF]).1 = false ∧
    cmd (withOutcomes (demoDisplay Size.W128xH64) [false]) 0xAF
      = cmd (withOutcomes (demoDisplay Size.W128xH64) [true]) 0xAF ∧
    (i2c_write_blocking (withOutcomes (demoDisplay Size.W128xH64) [false]).i2CInst
        (withOutcomes (demoDisplay Size.W128xH64) [false]).address [0x00, 0xB0]).1 = false ∧
    sendBuffer (withOutcomes (demoDisplay Size.W128xH64) [false])
      = sendBuffer (withOutcomes (demoDisplay Size.W128xH64) [true]) ∧
    (sendBuffer (withOutcomes (demoDisplay Size.W128xH64) [false])).i2CInst.log.length = 32 := by
  refine ⟨by decide, by decide, by decide, ?_, ?_⟩
  · have h0 : cmd (withOutcomes (demoDisplay Size.W128xH64) [false]) (toUInt8 (0xB0 + (0 : Nat)))
        = cmd (withOutcomes (demoDisplay Size.W128xH64) [true]) (toUInt8 (0xB0 + (0 : Nat))) := by
      decide
    have hp : sendPage (withOutcomes (demoDisplay Size.W128xH64) [false]) 0
        = sendPage (withOutcomes (demoDisplay Size.W128xH64) [true]) 0 := by
      unfold sendPage
      simp only [h0]
    have hr : List.range 8 = 0 :: [1, 2, 3, 4, 5, 6, 7] := by decide
    unfold sendBuffer
    rw [hr]
    show List.foldl sendPage (sendPage (withOutcomes (demoDisplay Size.W128xH64) [false]) 0) _
      = List.foldl sendPage (sendPage (withOutcomes (demoDisplay Size.W128xH64) [true]) 0) _
    rw [hp]
  · show ((List.range 8).foldl sendPage
      (withOutcomes (demoDisplay Size.W128xH64) [false])).i2CInst.log.length = 32
    rw [sendPages_log_length]
    rfl

/-- C10 as amended: `cmd` and `sendBuffer` return nothing and never look at the outcome of a
bus write. Whatever outcomes the transport reports, `cmd` attempts exactly one write and
`sendBuffer` attempts all 32 writes, and the resulting display agrees with the one of the run
in which every write succeeds on the attempted writes (addresses and bytes, in order), the
frame buffer and every other field; no failure signal is produced and no write is skipped. -/
theorem bus_outcomes_ignored (d : SSD1306) (o : List Bool) (command : Nat) :
    agreeUpToOutcomes (cmd (withOutcomes d o) command) (cmd (withOutcomes d []) command) ∧
    (cmd (withOutcomes d o) command).i2CInst.log
      = d.i2CInst.log ++ [⟨d.address, [0x00, command]⟩] ∧
    agreeUpToOutcomes (sendBuffer (withOutcomes d o)) (sendBuffer (withOutcomes d [])) ∧
    (sendBuffer (withOutcomes d o)).i2CInst.log.length = d.i2CInst.log.length + 32 := by
  have h0 : agreeUpToOutcomes (withOutcomes d o) (withOutcomes d []) :=
    ⟨rfl, rfl, rfl, rfl, rfl, rfl, rfl⟩
  refine ⟨agree_cmd _ _ command h0, cmd_log _ _, agree_sendPages _ _ _ h0, ?_⟩
  show ((List.range 8).foldl sendPage (withOutcomes d o)).i2CInst.log.length = _
  rw [sendPages_log_length]
  rfl

/-! ## Control operations -/

theorem invertDisplay_log (d : SSD1306) :
    (invertDisplay d).i2CInst.log
      = d.i2CInst.log ++ [commandFrame d.address (if d.inverted = true then 0xA6 else 0xA7)] := by
  unfold invertDisplay
  simp only [cmd_log, commandFrame]
  cases d.inverted <;> rfl

theorem invertDisplay_fields (d : SSD1306) :
    (invertDisplay d).inverted = (!d.inverted) ∧ (invertDisplay d).address = d.address ∧
    (invertDisplay d).size = d.size ∧ (invertDisplay d).width = d.width ∧
    (invertDisplay d).height = d.height ∧ (invertDisplay d).frameBuffer = d.frameBuffer :=
  ⟨rfl, rfl, rfl, rfl, rfl, rfl⟩

/-- C11: for every display state, `invertDisplay` appends exactly one command frame to the bus
log, flips the stored inversion flag and leaves the frame buffer (and address and geometry)
unchanged. The command byte is the normal-display opcode `SSD1306_INVERTED_OFF` = 0xA6 with
its lowest bit set to the new value of the flag (0xA7 when the display becomes inverted, 0xA6
when it becomes normal). Two calls restore the flag and append two command frames whose lowest
bits are complementary. -/
theorem invertDisplay_flag_and_command_in_sync (d : SSD1306) :
    SSD1306_INVERTED_OFF = 0xA6 ∧
    (invertDisplay d).i2CInst.log
      = d.i2CInst.log ++ [commandFrame d.address (if d.inverted = true then 0xA6 else 0xA7)] ∧
    (if d.inverted = true then 0xA6 else 0xA7 : Nat)
      = SSD1306_INVERTED_OFF ||| (if (invertDisplay d).inverted = true then 1 else 0) ∧
    (if d.inverted = true then 0xA6 else 0xA7 : Nat).testBit 0 = (invertDisplay d).inverted ∧
    (invertDisplay d).inverted = (!d.inverted) ∧
    (invertDisplay d).frameBuffer = d.frameBuffer ∧
    (invertDisplay d).address = d.address ∧ (invertDisplay d).size = d.size ∧
    (invertDisplay d).width = d.width ∧ (invertDisplay d).height = d.height ∧
    (invertDisplay (invertDisplay d)).inverted = d.inverted ∧
    (invertDisplay (invertDisplay d)).i2CInst.log
      = d.i2CInst.log ++ [commandFrame d.address (if d.inverted = true then 0xA6 else 0xA7),
                           commandFrame d.address (if d.inverted = true then 0xA7 else 0xA6)] ∧
    (if d.inverted = true then 0xA6 else 0xA7 : Nat).testBit 0
      = (!(if d.inverted = true then 0xA7 else 0xA6 : Nat).testBit 0) ∧
    (invertDisplay (invertDisplay d)).frameBuffer = d.frameBuffer := by
  obtain ⟨f1, f2, f3, f4, f5, f6⟩ := invertDisplay_fields d
  obtain ⟨g1, g2, g3, g4, g5, g6⟩ := invertDisplay_fields (invertDisplay d)
  refine ⟨rfl, invertDisplay_log d, ?_, ?_, f1, f6, f2, f3, f4, f5, ?_, ?_, ?_, ?_⟩
  · rw [f1]; cases d.inverted <;> decide
  · rw [f1]; cases d.inverted <;> decide
  · rw [g1, f1]; cases d.inverted <;> rfl
  · rw [invertDisplay_log (invertDisplay d), invertDisplay_log d, f1, f2]
    cases d.inverted <;> simp
  · cases d.inverted <;> decide
  · rw [g6, f6]

theorem cmds_log (bs : List Nat) (d : SSD1306) :
    (bs.foldl cmd d).i2CInst.log = d.i2CInst.log ++ bs.map (commandFrame d.address) ∧
    (bs.foldl cmd d).address = d.address ∧ (bs.foldl cmd d).size = d.size ∧
    (bs.foldl cmd d).width = d.width ∧ (bs.foldl cmd d).height = d.height ∧
    (bs.foldl cmd d).inverted = d.inverted ∧ (bs.foldl cmd d).frameBuffer = d.frameBuffer := by
  induction bs generalizing d with
  | nil => simp
  | cons b t ih =>
    obtain ⟨i1, i2, i3, i4, i5, i6, i7⟩ := ih (cmd d b)
    obtain ⟨c2, c3, c4, c5, c6, c7⟩ := cmd_frame d b
    rw [List.foldl_cons, i1, i2, i3, i4, i5, i6, i7, cmd_log, c2, c3, c4, c5, c6, c7]
    simp [commandFrame]

theorem commandFrame_isCommandFrame (addr b : Nat) : isCommandFrame addr (commandFrame addr b) :=
  ⟨rfl, rfl, rfl⟩

theorem pageWrites_shape (addr : Nat) (fb : FrameBuffer) (page : Nat) :
    ∀ w ∈ pageWrites addr fb page, isCommandFrame addr w ∨ isDataBlock addr w := by
  intro w hw
  simp only [pageWrites, List.mem_cons, List.mem_singleton, List.not_mem_nil, or_false] at hw
  rcases hw with h | h | h | h
  · left; rw [h]; exact ⟨rfl, rfl, rfl⟩
  · left; rw [h]; exact ⟨rfl, rfl, rfl⟩
  · left; rw [h]; exact ⟨rfl, rfl, rfl⟩
  · right; rw [h]; exact ⟨rfl, by simp, rfl⟩

theorem setOrientation_log (d : SSD1306) (orientation : Bool) :
    (setOrientation d orientation).i2CInst.log
      = d.i2CInst.log ++
          (if orientation = true then [SSD1306_CLUMN_REMAP_OFF, SSD1306_COM_REMAP_OFF]
            else [SSD1306_CLUMN_REMAP_ON, SSD1306_COM_REMAP_ON]).map (commandFrame d.address) := by
  unfold setOrientation
  cases orientation <;> simp [cmd_log, cmd_frame, commandFrame]

theorem setContrast_log (d : SSD1306) (contrast : Nat) :
    (setContrast d contrast).i2CInst.log
      = d.i2CInst.log ++ [commandFrame d.address SSD1306_CONTRAST,
                           commandFrame d.address contrast] := by
  unfold setContrast
  simp [cmd_log, cmd_frame, commandFrame]

theorem clear_fields (d : SSD1306) :
    (clear d).i2CInst = d.i2CInst ∧ (clear d).address = d.address ∧ (clear d).size = d.size ∧
    (clear d).width = d.width ∧ (clear d).height = d.height ∧
    (clear d).inverted = d.inverted :=
  ⟨rfl, rfl, rfl, rfl, rfl, rfl⟩

theorem clear_byteAt (d : SSD1306) (i : Nat) : (clear d).frameBuffer.byteAt i = 0 := by
  show (List.replicate d.frameBuffer.buffer.length 0).getD i 0 = 0
  rw [List.getD_eq_getElem?_getD, List.getElem?_replicate]
  split <;> rfl

theorem pageWrites_clear (addr : Nat) (d : SSD1306) (page : Nat) :
    pageWrites addr (clear d).frameBuffer page
      = [commandFrame addr (0xB0 + page), commandFrame addr 0x02, commandFrame addr 0x10,
         ⟨addr, 0x40 :: List.replicate 128 0⟩] := by
  unfold pageWrites
  simp only [clear_byteAt, commandFrame]
  have : (List.range 128).map (fun _ => (0 : Nat)) = List.replicate 128 0 := by decide
  rw [this]

theorem construct_core (d0 : SSD1306) (hlen : 1024 ≤ d0.frameBuffer.buffer.length) :
    (sendBuffer (clear (setup.foldl cmd d0))).i2CInst.log
      = d0.i2CInst.log ++ setup.map (commandFrame d0.address)
          ++ (List.range 8).flatMap (fun page =>
              [commandFrame d0.address (0xB0 + page), commandFrame d0.address 0x02,
               commandFrame d0.address 0x10, ⟨d0.address, 0x40 :: List.replicate 128 0⟩]) ∧
    (sendBuffer (clear (setup.foldl cmd d0))).address = d0.address ∧
    (sendBuffer (clear (setup.foldl cmd d0))).size = d0.size ∧
    (sendBuffer (clear (setup.foldl cmd d0))).width = d0.width ∧
    (sendBuffer (clear (setup.foldl cmd d0))).height = d0.height ∧
    (sendBuffer (clear (setup.foldl cmd d0))).inverted = d0.inverted ∧
    (sendBuffer (clear (setup.foldl cmd d0))).frameBuffer
      = ⟨List.replicate d0.frameBuffer.buffer.length 0⟩ := by
  obtain ⟨s1, s2, s3, s4, s5, s6, s7⟩ := cmds_log setup d0
  obtain ⟨c1, c2, c3, c4, c5, c6⟩ := clear_fields (setup.foldl cmd d0)
  have hclen : 1024 ≤ (clear (setup.foldl cmd d0)).frameBuffer.buffer.length := by
    show 1024 ≤ (List.replicate (setup.foldl cmd d0).frameBuffer.buffer.length 0).length
    rw [List.length_replicate, s7]; exact hlen
  have hr : ∀ p ∈ List.range 8, p < 8 := fun p hp => List.mem_range.mp hp
  obtain ⟨b1, b2, b3, b4, b5, b6, b7⟩ :=
    sendPages_log (List.range 8) (clear (setup.foldl cmd d0)) hr hclen
  unfold sendBuffer
  refine ⟨?_, ?_, ?_, ?_, ?_, ?_, ?_⟩
  · rw [b1, c1, s1, c2, s2]
    congr 1
    apply List.flatMap_congr
    intro p _
    exact pageWrites_clear d0.address _ p
  · rw [b2, c2, s2]
  · rw [b3, c3, s3]
  · rw [b4, c4, s4]
  · rw [b5, c5, s5]
  · rw [b6, c6, s6]
  · rw [b7]
    show (⟨List.replicate (setup.foldl cmd d0).frameBuffer.buffer.length 0⟩ : FrameBuffer) = _
    rw [s7]

/-- The constructor's fields and bus log. -/
theorem construct_log (i2CInst : i2c_inst) (Address : Nat) (size : Size) (frameBuffer : FrameBuffer)
    (hlen : 1024 ≤ frameBuffer.buffer.length) :
    (SSD1306.construct i2CInst Address size frameBuffer).i2CInst.log
      = i2CInst.log ++ setup.map (commandFrame Address)
          ++ (List.range 8).flatMap (fun page =>
              [commandFrame Address (0xB0 + page), commandFrame Address 0x02,
               commandFrame Address 0x10, ⟨Address, 0x40 :: List.replicate 128 0⟩]) ∧
    (SSD1306.construct i2CInst Address size frameBuffer).address = Address ∧
    (SSD1306.construct i2CInst Address size frameBuffer).size = size ∧
    (SSD1306.construct i2CInst Address size frameBuffer).width = 128 ∧
    (SSD1306.construct i2CInst Address size frameBuffer).height = heightOf size ∧
    (SSD1306.construct i2CInst Address size frameBuffer).inverted = false ∧
    (SSD1306.construct i2CInst Address size frameBuffer).frameBuffer
      = ⟨List.replicate frameBuffer.buffer.length 0⟩ :=
  construct_core ⟨i2CInst, Address, size, 128, heightOf size, false, frameBuffer⟩ hlen

/-- C12: `cmd` appends exactly one write to the bus log, to the stored device address, of the
two-byte frame `[0x00, b]`, and changes nothing else. `setOrientation`, `invertDisplay`,
`setContrast`, `turnOn` and `turnOff` append command frames only; `sendBuffer` (on a buffer of
at least 1024 bytes) and the constructor append only command frames and the 129-byte data
blocks starting with 0x40, and a data block is never a command frame. -/
theorem commands_reach_bus_as_frames :
    (∀ (d : SSD1306) (b : Nat),
      (cmd d b).i2CInst.log = d.i2CInst.log ++ [⟨d.address, [0x00, b]⟩] ∧
      (cmd d b).address = d.address ∧ (cmd d b).frameBuffer = d.frameBuffer ∧
      (cmd d b).inverted = d.inverted ∧ (cmd d b).size = d.size) ∧
    (∀ (addr b : Nat), commandFrame addr b = ⟨addr, [0x00, b]⟩ ∧
      isCommandFrame addr (commandFrame addr b)) ∧
    (∀ (addr : Nat) (w : BusWrite), isDataBlock addr w → ¬ isCommandFrame addr w) ∧
    (∀ (d : SSD1306) (orientation : Bool),
      (setOrientation d orientation).i2CInst.log
        = d.i2CInst.log ++
            (if orientation = true then [SSD1306_CLUMN_REMAP_OFF, SSD1306_COM_REMAP_OFF]
              else [SSD1306_CLUMN_REMAP_ON, SSD1306_COM_REMAP_ON]).map
                (commandFrame d.address)) ∧
    (∀ (d : SSD1306),
      (invertDisplay d).i2CInst.log
        = d.i2CInst.log
            ++ [commandFrame d.address (if d.inverted = true then 0xA6 else 0xA7)]) ∧
    (∀ (d : SSD1306) (contrast : Nat),
      (setContrast d contrast).i2CInst.log
        = d.i2CInst.log ++ [commandFrame d.address SSD1306_CONTRAST,
                             commandFrame d.address contrast]) ∧
    (∀ (d : SSD1306),
      (turnOn d).i2CInst.log = d.i2CInst.log ++ [commandFrame d.address SSD1306_DISPLAY_ON] ∧
      (turnOff d).i2CInst.log = d.i2CInst.log ++ [commandFrame d.address SSD1306_DISPLAY_OFF]) ∧
    (∀ (d : SSD1306), 1024 ≤ d.frameBuffer.buffer.length →
      (sendBuffer d).i2CInst.log
        = d.i2CInst.log ++ (List.range 8).flatMap (pageWrites d.address d.frameBuffer) ∧
      ∀ w ∈ (List.range 8).flatMap (pageWrites d.address d.frameBuffer),
        isCommandFrame d.address w ∨ isDataBlock d.address w) ∧
    (∀ (i2CInst : i2c_inst) (Address : Nat) (size : Size) (frameBuffer : FrameBuffer),
      1024 ≤ frameBuffer.buffer.length →
      (SSD1306.construct i2CInst Address size frameBuffer).i2CInst.log
        = i2CInst.log ++ setup.map (commandFrame Address)
            ++ (List.range 8).flatMap (fun page =>
                [commandFrame Address (0xB0 + page), commandFrame Address 0x02,
                 commandFrame Address 0x10, ⟨Address, 0x40 :: List.replicate 128 0⟩]) ∧
      isDataBlock Address ⟨Address, 0x40 :: List.replicate 128 0⟩) := by
  refine ⟨?_, ?_, ?_, setOrientation_log, invertDisplay_log, setContrast_log, ?_, ?_, ?_⟩
  · intro d b
    exact ⟨cmd_log d b, rfl, rfl, rfl, rfl⟩
  · intro addr b
    exact ⟨rfl, commandFrame_isCommandFrame addr b⟩
  · intro addr w hd hc
    have h1 := hd.2.1
    have h2 := hc.2.1
    omega
  · intro d
    exact ⟨cmd_log d _, cmd_log d _⟩
  · intro d hlen
    have hr : ∀ p ∈ List.range 8, p < 8 := fun p hp => List.mem_range.mp hp
    refine ⟨(sendPages_log (List.range 8) d hr hlen).1, ?_⟩
    intro w hw
    obtain ⟨p, _, hwp⟩ := List.mem_flatMap.mp hw
    exact pageWrites_shape _ _ p w hwp
  · intro i2CInst Address size frameBuffer hlen
    refine ⟨(construct_log i2CInst Address size frameBuffer hlen).1, rfl, ?_, rfl⟩
    simp

/-- Instance of `commands_reach_bus_as_frames`: the transfer of the cleared full-height
display consists of command frames and data blocks only. -/
theorem commands_reach_bus_as_frames_witness :
    1024 ≤ (demoDisplay Size.W128xH64).frameBuffer.buffer.length ∧
    ∀ w ∈ (List.range 8).flatMap
        (pageWrites (demoDisplay Size.W128xH64).address (demoDisplay Size.W128xH64).frameBuffer),
      isCommandFrame (demoDisplay Size.W128xH64).address w
        ∨ isDataBlock (demoDisplay Size.W128xH64).address w :=
  ⟨(demoDisplay_wf _).2.2.1,
   (commands_reach_bus_as_frames.2.2.2.2.2.2.2.1 (demoDisplay Size.W128xH64)
      (demoDisplay_wf _).2.2.1).2⟩

/-- C13: for each geometry, every bus handle, address and default-constructed frame buffer of
at least 1024 bytes, the constructor yields a display with `width` = 128, `height` = 64
(128x64) or 32 (128x32) and the inversion flag false; it appends to the bus log the 23 setup
bytes, each as its own frame `[0x00, b]` and in the order of the list, with 0xAF last, and then
the 32 writes of `sendBuffer` on an all-zero buffer, whose 8 data blocks are 0x40 followed by
128 zero bytes; after construction every byte of the buffer is 0. -/
theorem construct_state_and_trace (i2CInst : i2c_inst) (Address : Nat) (size : Size)
    (frameBuffer : FrameBuffer) (hlen : 1024 ≤ frameBuffer.buffer.length) :
    (SSD1306.construct i2CInst Address size frameBuffer).width = 128 ∧
    (size = Size.W128xH64 → (SSD1306.construct i2CInst Address size frameBuffer).height = 64) ∧
    (size = Size.W128xH32 → (SSD1306.construct i2CInst Address size frameBuffer).height = 32) ∧
    (SSD1306.construct i2CInst Address size frameBuffer).inverted = false ∧
    (SSD1306.construct i2CInst Address size frameBuffer).size = size ∧
    (SSD1306.construct i2CInst Address size frameBuffer).address = Address ∧
    (SSD1306.construct i2CInst Address size frameBuffer).i2CInst.log
      = i2CInst.log
          ++ ([0xAE, 0xD5, 0x80, 0xA8, 0x3F, 0xD3, 0x00, 0x40, 0xAD, 0x8B, 0xA1, 0xC8, 0xDA,
               0x12, 0x81, 0x7F, 0xD9, 0x22, 0xDB, 0x35, 0xA4, 0xA6, 0xAF].map
                (fun b => (⟨Address, [0x00, b]⟩ : BusWrite)))
          ++ (List.range 8).flatMap (fun page =>
              [⟨Address, [0x00, 0xB0 + page]⟩, ⟨Address, [0x00, 0x02]⟩,
               ⟨Address, [0x00, 0x10]⟩, ⟨Address, 0x40 :: List.replicate 128 0⟩]) ∧
    (SSD1306.construct i2CInst Address size frameBuffer).i2CInst.log.length
      = i2CInst.log.length + 23 + 32 ∧
    (∀ b ∈ (SSD1306.construct i2CInst Address size frameBuffer).frameBuffer.buffer, b = 0) ∧
    (SSD1306.construct i2CInst Address size frameBuffer).frameBuffer.buffer.length
      = frameBuffer.buffer.length ∧
    (SSD1306.construct i2CInst Address size frameBuffer).wf := by
  obtain ⟨h1, h2, h3, h4, h5, h6, h7⟩ := construct_log i2CInst Address size frameBuffer hlen
  have hz : ∀ b ∈ (SSD1306.construct i2CInst Address size frameBuffer).frameBuffer.buffer,
      b = 0 := by
    intro b hb
    rw [h7] at hb
    exact (List.mem_replicate.mp hb).2
  have hl : (SSD1306.construct i2CInst Address size frameBuffer).frameBuffer.buffer.length
      = frameBuffer.buffer.length := by
    rw [h7]; exact List.length_replicate _ _
  refine ⟨h4, ?_, ?_, h6, h3, h2, ?_, ?_, hz, hl, ?_⟩
  · intro hs; rw [h5, hs]; rfl
  · intro hs; rw [h5, hs]; rfl
  · rw [h1]; rfl
  · rw [h1]
    simp [List.length_append, List.range_succ, setup]
  · refine ⟨h4, ?_, ?_, ?_⟩
    · rw [h5, h3]
    · rw [hl]; simpa [PAGES, PAGE_BYTES] using hlen
    · intro b hb
      have := hz b hb
      omega

/-- Instance of `construct_state_and_trace`: the half-height display built over a buffer of
1024 bytes holding 0xAA. -/
theorem construct_state_and_trace_witness :
    1024 ≤ (FrameBuffer.mk (List.replicate 1024 0xAA)).buffer.length ∧
    (SSD1306.construct ⟨[], []⟩ 0x3C Size.W128xH32 ⟨List.replicate 1024 0xAA⟩).height = 32 ∧
    (SSD1306.construct ⟨[], []⟩ 0x3C Size.W128xH32
      ⟨List.replicate 1024 0xAA⟩).i2CInst.log.length = 0 + 23 + 32 :=
  ⟨by rw [List.length_replicate],
   (construct_state_and_trace ⟨[], []⟩ 0x3C Size.W128xH32 ⟨List.replicate 1024 0xAA⟩
      (by rw [List.length_replicate])).2.2.1 rfl,
   (construct_state_and_trace ⟨[], []⟩ 0x3C Size.W128xH32 ⟨List.replicate 1024 0xAA⟩
      (by rw [List.length_replicate])).2.2.2.2.2.2.2.1⟩

/-- C14: for every display state and contrast value `v`, `setContrast` appends exactly two
command frames, the contrast opcode `SSD1306_CONTRAST` and then `v`; `turnOn` and `turnOff`
each append exactly one command frame, the display-on and the display-off opcode. None of the
three changes the frame buffer, the inversion flag, the address or the geometry. -/
theorem contrast_and_power_commands (d : SSD1306) (v : Nat) :
    (setContrast d v).i2CInst.log
      = d.i2CInst.log ++ [⟨d.address, [0x00, SSD1306_CONTRAST]⟩, ⟨d.address, [0x00, v]⟩] ∧
    (turnOn d).i2CInst.log = d.i2CInst.log ++ [⟨d.address, [0x00, SSD1306_DISPLAY_ON]⟩] ∧
    (turnOff d).i2CInst.log = d.i2CInst.log ++ [⟨d.address, [0x00, SSD1306_DISPLAY_OFF]⟩] ∧
    (setContrast d v).frameBuffer = d.frameBuffer ∧ (turnOn d).frameBuffer = d.frameBuffer ∧
    (turnOff d).frameBuffer = d.frameBuffer ∧
    (setContrast d v).inverted = d.inverted ∧ (turnOn d).inverted = d.inverted ∧
    (turnOff d).inverted = d.inverted ∧
    (setContrast d v).address = d.address ∧ (turnOn d).address = d.address ∧
    (turnOff d).address = d.address ∧
    (setContrast d v).size = d.size ∧ (turnOn d).size = d.size ∧ (turnOff d).size = d.size :=
  ⟨setContrast_log d v, cmd_log d _, cmd_log d _, rfl, rfl, rfl, rfl, rfl, rfl, rfl, rfl, rfl,
    rfl, rfl, rfl⟩

/-- C15: for every display state, after `clear` every byte of the frame buffer is 0 and the
buffer has the length it had; `clear` logs no bus write and leaves the bus handle, the
inversion flag, the address and the geometry as they were. -/
theorem clear_zeroes_buffer (d : SSD1306) :
    (∀ b ∈ (clear d).frameBuffer.buffer, b = 0) ∧
    (∀ i, (clear d).frameBuffer.byteAt i = 0) ∧
    (clear d).frameBuffer.buffer.length = d.frameBuffer.buffer.length ∧
    (clear d).i2CInst.log = d.i2CInst.log ∧ (clear d).i2CInst = d.i2CInst ∧
    (clear d).inverted = d.inverted ∧ (clear d).size = d.size ∧
    (clear d).width = d.width ∧ (clear d).height = d.height ∧
    (clear d).address = d.address := by
  refine ⟨?_, clear_byteAt d, ?_, rfl, rfl, rfl, rfl, rfl, rfl, rfl⟩
  · intro b hb
    exact (List.mem_replicate.mp hb).2
  · exact List.length_replicate _ _

/-! ## Bulk replace and transfer range -/

theorem setBuffer_eq (d : SSD1306) (bytes : List Nat)
    (hlen : bytes.length = d.frameBuffer.buffer.length) :
    setBuffer d bytes = { d with frameBuffer := ⟨bytes⟩ } := by
  unfold setBuffer FrameBuffer.setBuffer
  rw [if_pos hlen]

/-- C16: for every display state and every byte sequence `bytes` of the buffer's size, after
`setBuffer` the view of the frame buffer is exactly `bytes` (read byte by byte as well), and
nothing else of the display changes. When that size is at least 1024, a following `sendBuffer`
sends as the payloads of its eight data blocks the slices `bytes[page * 128 ..]` of 128 bytes,
whose concatenation is the first 1024 bytes of `bytes`, hence `bytes` itself when the size is
1024. -/
theorem setBuffer_round_trip (d : SSD1306) (bytes : List Nat)
    (hlen : bytes.length = d.frameBuffer.buffer.length) :
    (setBuffer d bytes).frameBuffer.get = bytes ∧
    (∀ i, (setBuffer d bytes).frameBuffer.byteAt i = bytes.getD i 0) ∧
    (setBuffer d bytes).i2CInst = d.i2CInst ∧ (setBuffer d bytes).address = d.address ∧
    (setBuffer d bytes).size = d.size ∧ (setBuffer d bytes).inverted = d.inverted ∧
    (1024 ≤ bytes.length →
      (sendBuffer (setBuffer d bytes)).i2CInst.log
        = d.i2CInst.log ++ (List.range 8).flatMap (fun page =>
            [⟨d.address, [0x00, 0xB0 + page]⟩, ⟨d.address, [0x00, 0x02]⟩,
             ⟨d.address, [0x00, 0x10]⟩,
             ⟨d.address, 0x40 :: (bytes.drop (page * 128)).take 128⟩]) ∧
      (List.range 8).flatMap (fun page => (bytes.drop (page * 128)).take 128)
        = bytes.take 1024 ∧
      (sendBuffer (setBuffer d bytes)).frameBuffer.get = bytes) ∧
    (bytes.length = 1024 →
      (List.range 8).flatMap (fun page => (bytes.drop (page * 128)).take 128) = bytes) := by
  have he := setBuffer_eq d bytes hlen
  refine ⟨?_, ?_, ?_, ?_, ?_, ?_, ?_, ?_⟩
  · rw [he]; rfl
  · intro i; rw [he]; rfl
  · rw [he]
  · rw [he]
  · rw [he]
  · rw [he]
  · intro h1024
    have hr : ∀ p ∈ List.range 8, p < 8 := fun p hp => List.mem_range.mp hp
    have hl : 1024 ≤ (setBuffer d bytes).frameBuffer.buffer.length := by rw [he]; exact h1024
    obtain ⟨b1, _, _, _, _, _, b7⟩ := sendPages_log (List.range 8) (setBuffer d bytes) hr hl
    refine ⟨?_, slices_concat bytes 128 8, ?_⟩
    · show ((List.range 8).foldl sendPage (setBuffer d bytes)).i2CInst.log = _
      rw [b1, he]
      congr 1
      apply List.flatMap_congr
      intro p hp
      have hp8 : p < 8 := List.mem_range.mp hp
      have hs : (bytes.drop (p * 128)).take 128
          = (List.range 128).map (fun k => (FrameBuffer.mk bytes).byteAt (p * 128 + k)) :=
        slice_eq_map bytes (p * 128) 128 (by omega)
      rw [hs]
      rfl
    · show ((List.range 8).foldl sendPage (setBuffer d bytes)).frameBuffer.get = _
      rw [b7, he]; rfl
  · intro h1024
    rw [slices_concat bytes 128 8]
    exact List.take_of_length_le (by omega)

/-- Instance of `setBuffer_round_trip`: the cleared full-height display receives 1024 bytes
0x5A. -/
theorem setBuffer_round_trip_witness :
    (List.replicate 1024 0x5A).length = (demoDisplay Size.W128xH64).frameBuffer.buffer.length ∧
    (setBuffer (demoDisplay Size.W128xH64) (List.replicate 1024 0x5A)).frameBuffer.get
      = List.replicate 1024 0x5A :=
  ⟨by
      show (List.replicate 1024 0x5A).length = (List.replicate 1024 0).length
      rw [List.length_replicate, List.length_replicate],
   (setBuffer_round_trip (demoDisplay Size.W128xH64) (List.replicate 1024 0x5A)
      (by
        show (List.replicate 1024 0x5A).length = (List.replicate 1024 0).length
        rw [List.length_replicate, List.length_replicate])).1⟩

theorem mem_sendPageReads (page i : Nat) :
    i ∈ sendPageReads page ↔ page * 128 ≤ i ∧ i < page * 128 + 128 := by
  unfold sendPageReads
  simp only [List.mem_map, List.mem_range]
  constructor
  · rintro ⟨k, hk, rfl⟩
    omega
  · rintro ⟨h1, h2⟩
    exact ⟨i - page * 128, by omega, by omega⟩

set_option maxRecDepth 100000 in
/-- C17 as stated fails: on the half-height geometry `width * height / 8` is 512, while the
128 indices that `sendBuffer` reads for page 4 are 512..639, none of them below 512. On a
half-height display whose buffer has exactly 512 bytes every read of page 4 is outside the
buffer, while the write of that page still has 129 bytes. -/
theorem sendBuffer_slice_exceeds_geometry_size :
    (demoDisplay Size.W128xH32).width * (demoDisplay Size.W128xH32).height / 8 = 512 ∧
    sendPageReads 4 = (List.range 128).map (fun k => 512 + k) ∧
    (∀ i ∈ sendPageReads 4,
      ¬ i < (demoDisplay Size.W128xH32).width * (demoDisplay Size.W128xH32).height / 8) ∧
    ({ demoDisplay Size.W128xH32 with
        frameBuffer := ⟨List.replicate 512 0⟩ } : SSD1306).frameBuffer.buffer.length = 512 ∧
    (∀ i ∈ sendPageReads 4,
      ¬ i < ({ demoDisplay Size.W128xH32 with
                frameBuffer := ⟨List.replicate 512 0⟩ } : SSD1306).frameBuffer.buffer.length) ∧
    (sendPage { demoDisplay Size.W128xH32 with frameBuffer := ⟨List.replicate 512 0⟩ }
        4).i2CInst.log.map (fun w => w.data.length) = [2, 2, 2, 129] := by
  have hlen : ({ demoDisplay Size.W128xH32 with
        frameBuffer := ⟨List.replicate 512 0⟩ } : SSD1306).frameBuffer.buffer.length = 512 :=
    List.length_replicate _ _
  refine ⟨by decide, by decide, ?_, hlen, ?_, ?_⟩
  · intro i hi
    have h := (mem_sendPageReads 4 i).mp hi
    have hsz : (demoDisplay Size.W128xH32).width * (demoDisplay Size.W128xH32).height / 8
        = 512 := by decide
    rw [hsz]
    omega
  · intro i hi
    have h := (mem_sendPageReads 4 i).mp hi
    rw [hlen]
    omega
  · unfold sendPage
    simp [i2c_write_blocking_log, cmd_log, cmd_frame, sendPageReads, demoDisplay]

/-- C17 as amended: for a constructed display of either geometry, every 128-byte slice that
`sendBuffer` reads, indices `page * 128 .. page * 128 + 127` for `page` in 0..7, lies within the
first `8 * 128 = 1024` bytes and so within the frame buffer, and the data block of each page
carries exactly those 128 bytes. On the full-height geometry 1024 is `width * height / 8`; on
the half-height geometry `width * height / 8` is 512, and the indices read are at or beyond it
exactly for the pages 4..7. -/
theorem sendBuffer_reads_within_transfer_range (d : SSD1306) (hwf : d.wf) :
    (∀ page k, page < 8 → k < 128 →
      page * 128 + k < PAGES * PAGE_BYTES ∧ page * 128 + k < d.frameBuffer.buffer.length) ∧
    (∀ page i, i ∈ sendPageReads page ↔ page * 128 ≤ i ∧ i < page * 128 + 128) ∧
    (∀ page, page < 8 → ∀ i ∈ sendPageReads page,
      i < PAGES * PAGE_BYTES ∧ i < d.frameBuffer.buffer.length) ∧
    (∀ page, page < 8 →
      (sendPage d page).i2CInst.log = d.i2CInst.log ++ pageWrites d.address d.frameBuffer page ∧
      (d.frameBuffer.get.drop (page * 128)).take 128
        = (List.range 128).map (fun k => d.frameBuffer.byteAt (page * 128 + k)) ∧
      ((d.frameBuffer.get.drop (page * 128)).take 128).length = 128) ∧
    (sendBuffer d).i2CInst.log
      = d.i2CInst.log ++ (List.range 8).flatMap (pageWrites d.address d.frameBuffer) ∧
    (d.size = Size.W128xH64 → d.width * d.height / 8 = PAGES * PAGE_BYTES) ∧
    (d.size = Size.W128xH32 → d.width * d.height / 8 = 512) ∧
    (d.size = Size.W128xH32 → ∀ page, page < 8 → ∀ i ∈ sendPageReads page,
      (4 ≤ page ↔ d.width * d.height / 8 ≤ i)) := by
  obtain ⟨hw, hh, hlen, _⟩ := hwf
  have hlen' : 1024 ≤ d.frameBuffer.buffer.length := by
    simpa [PAGES, PAGE_BYTES] using hlen
  have hr : ∀ p ∈ List.range 8, p < 8 := fun p hp => List.mem_range.mp hp
  refine ⟨?_, mem_sendPageReads, ?_, ?_, (sendPages_log (List.range 8) d hr hlen').1, ?_, ?_, ?_⟩
  · intro page k hp hk
    simp only [PAGES, PAGE_BYTES]
    omega
  · intro page hp i hi
    have h := (mem_sendPageReads page i).mp hi
    simp only [PAGES, PAGE_BYTES]
    omega
  · intro page hp
    have hs := slice_eq_map d.frameBuffer.buffer (page * 128) 128 (by omega)
    refine ⟨sendPage_log d page hp hlen', hs, ?_⟩
    show ((d.frameBuffer.buffer.drop (page * 128)).take 128).length = 128
    rw [hs]; simp
  · intro hs; rw [hw, hh, hs]; decide
  · intro hs; rw [hw, hh, hs]; decide
  · intro hs page hp i hi
    have h := (mem_sendPageReads page i).mp hi
    have h512 : d.width * d.height / 8 = 512 := by rw [hw, hh, hs]; decide
    rw [h512]
    omega

/-- Instance of `sendBuffer_reads_within_transfer_range`: the last byte of page 7 of the
half-height display. -/
theorem sendBuffer_reads_within_transfer_range_witness :
    (demoDisplay Size.W128xH32).wf ∧
    7 * 128 + 127 < (demoDisplay Size.W128xH32).frameBuffer.buffer.length :=
  ⟨demoDisplay_wf _,
   ((sendBuffer_reads_within_transfer_range (demoDisplay Size.W128xH32)
      (demoDisplay_wf _)).1 7 127 (by decide) (by decide)).2⟩

/-! ## The pixel mapping as a partition of the transfer buffer -/

theorem mem_allPixels (size : Size) (x y : Nat) :
    (x, y) ∈ allPixels size ↔ x < 128 ∧ y < heightOf size := by
  simp only [allPixels, List.mem_flatMap, List.mem_map, List.mem_range, Prod.mk.injEq]
  constructor
  · rintro ⟨y', hy, x', hx, rfl, rfl⟩
    exact ⟨hx, hy⟩
  · rintro ⟨hx, hy⟩
    exact ⟨y, hy, x, hx, rfl, rfl⟩

theorem pixel_of_bit (size : Size) (i j : Nat) (hi : i < 1024) (hj : j < 8) :
    i % 128 < 128 ∧
    (if size = Size.W128xH32 then (i / 128) * 4 + j / 2 else (i / 128) * 8 + j) < heightOf size ∧
    pixelOffset size 128 (i % 128)
      (if size = Size.W128xH32 then (i / 128) * 4 + j / 2 else (i / 128) * 8 + j) = i ∧
    (pixelMask size
      (if size = Size.W128xH32 then (i / 128) * 4 + j / 2 else (i / 128) * 8 + j)).testBit j
      = true := by
  cases size
  · simp only [if_neg (by decide : ¬ Size.W128xH64 = Size.W128xH32)]
    have hy : (i / 128) * 8 + j < 64 := by omega
    have hbit : ∀ y : Nat, y < 64 → (pixelMask Size.W128xH64 y).testBit (y % 8) = true := by
      decide
    have hm : ((i / 128) * 8 + j) % 8 = j := by omega
    refine ⟨by omega, hy, ?_, ?_⟩
    · rw [pixelOffset_eq]
      simp only [if_neg (by decide : ¬ Size.W128xH64 = Size.W128xH32)]
      omega
    · have := hbit _ hy
      rw [hm] at this
      exact this
  · simp only [if_pos]
    have hy : (i / 128) * 4 + j / 2 < 32 := by omega
    have hbit : ∀ y : Nat, y < 32 → ∀ j : Nat, j < 8 → j / 2 = y % 4 →
        (pixelMask Size.W128xH32 y).testBit j = true := by decide
    refine ⟨by omega, hy, ?_, ?_⟩
    · rw [pixelOffset_eq]
      simp only [if_pos]
      omega
    · exact hbit _ hy j hj (by omega)

theorem eq_255_of_bits (b : Nat) (hb : b < 256) (h : ∀ j, j < 8 → b.testBit j = true) :
    b = 255 := by
  apply Nat.eq_of_testBit_eq
  intro j
  have h255 : (255 : Nat).testBit j = decide (j < 8) := by
    have := Nat.testBit_two_pow_sub_one 8 j
    simpa using this
  rw [h255]
  by_cases hj : j < 8
  · rw [h j hj]; simp [hj]
  · rw [Nat.testBit_lt_two_pow
      (lt_of_lt_of_le hb (Nat.pow_le_pow_right (n := 2) (by decide) (by omega : 8 ≤ j)))]
    simp [hj]

theorem addPixels_keeps_bit (ps : List (Nat × Nat)) (d : SSD1306) (hwf : d.wf) (i j : Nat)
    (h : (d.frameBuffer.byteAt i).testBit j = true) :
    ((addPixels d ps).frameBuffer.byteAt i).testBit j = true := by
  induction ps generalizing d with
  | nil => exact h
  | cons p t ih =>
    have hwf' := setPixel_wf d (p.1 : Nat) (p.2 : Nat) ADD hwf
    apply ih (setPixel d (p.1 : Nat) (p.2 : Nat) ADD) hwf'
    by_cases hin : p.1 < 128 ∧ p.2 < heightOf d.size
    · rw [setPixel_byteAt d p.1 p.2 ADD hwf hin.1 hin.2 i]
      by_cases hi : i = pixelOffset d.size 128 p.1 p.2
      · rw [if_pos hi, ← hi]
        simp [modeByte, Nat.testBit_or, h]
      · rw [if_neg hi]; exact h
    · have hout : ((p.1 : Nat) : Int) < 0 ∨ ((p.1 : Nat) : Int) ≥ 128 ∨ ((p.2 : Nat) : Int) < 0
          ∨ ((p.2 : Nat) : Int) ≥ heightOf d.size := by omega
      rw [setPixel_out_of_bounds_eq d _ _ ADD hwf.1 hwf.2.1 hout]
      exact h

theorem addPixels_sets_bit (ps : List (Nat × Nat)) (d : SSD1306) (hwf : d.wf) (x y j : Nat)
    (hmem : (x, y) ∈ ps) (hx : x < 128) (hy : y < heightOf d.size)
    (hbit : (pixelMask d.size y).testBit j = true) :
    ((addPixels d ps).frameBuffer.byteAt (pixelOffset d.size 128 x y)).testBit j = true := by
  induction ps generalizing d with
  | nil => exact absurd hmem (List.not_mem_nil _)
  | cons p t ih =>
    have hwf' := setPixel_wf d (p.1 : Nat) (p.2 : Nat) ADD hwf
    have hsz : (setPixel d (p.1 : Nat) (p.2 : Nat) ADD).size = d.size :=
      (setPixel_fields d _ _ _).2.2.1
    rcases List.mem_cons.mp hmem with hp | ht
    · apply addPixels_keeps_bit t (setPixel d (p.1 : Nat) (p.2 : Nat) ADD) hwf'
      rw [← hp]
      show ((setPixel d (x : Nat) (y : Nat) ADD).frameBuffer.byteAt _).testBit j = true
      rw [setPixel_byteAt d x y ADD hwf hx hy, if_pos rfl]
      simp [modeByte, Nat.testBit_or, hbit]
    · have := ih (setPixel d (p.1 : Nat) (p.2 : Nat) ADD) hwf' ht (by rw [hsz]; exact hy)
        (by rw [hsz]; exact hbit)
      rw [hsz] at this
      exact this

theorem addPixels_fields (ps : List (Nat × Nat)) (d : SSD1306) (hwf : d.wf) :
    (addPixels d ps).wf ∧ (addPixels d ps).size = d.size := by
  induction ps generalizing d with
  | nil => exact ⟨hwf, rfl⟩
  | cons p t ih =>
    have hwf' := setPixel_wf d (p.1 : Nat) (p.2 : Nat) ADD hwf
    obtain ⟨i1, i2⟩ := ih (setPixel d (p.1 : Nat) (p.2 : Nat) ADD) hwf'
    exact ⟨i1, i2.trans (setPixel_fields d _ _ _).2.2.1⟩

/-- C18: for each geometry, (a) two distinct in-bounds pixels never share a bit: their offsets
differ or their masks are disjoint; (b) every bit `j < 8` of every byte `i < 1024` lies in the
mask of exactly one in-bounds pixel; (c) on a constructed display, `setPixel` at one in-bounds
pixel, in any mode, leaves the mask bits of every other in-bounds pixel as they were; (d)
`setPixel` with mode ADD applied to every in-bounds pixel of a cleared buffer makes each of the
bytes 0..1023 equal to 0xFF, where the pixels applied are exactly the in-bounds ones. -/
theorem setPixel_partitions_transfer_buffer :
    (∀ (size : Size) (x1 y1 x2 y2 : Nat), x1 < 128 → y1 < heightOf size → x2 < 128 →
      y2 < heightOf size → (x1, y1) ≠ (x2, y2) →
      pixelOffset size 128 x1 y1 ≠ pixelOffset size 128 x2 y2
        ∨ pixelMask size y1 &&& pixelMask size y2 = 0) ∧
    (∀ (size : Size) (i j : Nat), i < 1024 → j < 8 →
      ∃! p : Nat × Nat, p.1 < 128 ∧ p.2 < heightOf size ∧
        pixelOffset size 128 p.1 p.2 = i ∧ (pixelMask size p.2).testBit j = true) ∧
    (∀ (d : SSD1306) (x1 y1 x2 y2 : Nat) (mode : WriteMode) (j : Nat), d.wf →
      x1 < 128 → y1 < heightOf d.size → x2 < 128 → y2 < heightOf d.size →
      (x1, y1) ≠ (x2, y2) → (pixelMask d.size y2).testBit j = true →
      ((setPixel d (x1 : Nat) (y1 : Nat) mode).frameBuffer.byteAt
          (pixelOffset d.size 128 x2 y2)).testBit j
        = (d.frameBuffer.byteAt (pixelOffset d.size 128 x2 y2)).testBit j) ∧
    (∀ (size : Size) (x y : Nat), (x, y) ∈ allPixels size ↔ x < 128 ∧ y < heightOf size) ∧
    (∀ (d : SSD1306), d.wf → ∀ i, i < 1024 →
      (addPixels (clear d) (allPixels d.size)).frameBuffer.byteAt i = 0xFF) := by
  refine ⟨?_, ?_, ?_, mem_allPixels, ?_⟩
  · intro size x1 y1 x2 y2 hx1 hy1 hx2 hy2 hne
    by_cases hoff : pixelOffset size 128 x1 y1 = pixelOffset size 128 x2 y2
    · right
      apply Nat.eq_of_testBit_eq
      intro j
      rw [Nat.testBit_and, Nat.zero_testBit]
      cases h1 : (pixelMask size y1).testBit j
      · rfl
      · cases h2 : (pixelMask size y2).testBit j
        · rfl
        · obtain ⟨ex, ey⟩ := pixel_bit_inj size x1 y1 x2 y2 j hx1 hx2 hy1 hy2 hoff h1 h2
          exact absurd (by rw [ex, ey]) hne
    · left; exact hoff
  · intro size i j hi hj
    obtain ⟨p1, p2, p3, p4⟩ := pixel_of_bit size i j hi hj
    refine ⟨(i % 128, if size = Size.W128xH32 then (i / 128) * 4 + j / 2 else (i / 128) * 8 + j),
      ⟨p1, p2, p3, p4⟩, ?_⟩
    rintro ⟨qx, qy⟩ ⟨q1, q2, q3, q4⟩
    obtain ⟨ex, ey⟩ := pixel_bit_inj size qx qy _ _ j q1 p1 q2 p2 (q3.trans p3.symm) q4 p4
    rw [ex, ey]
  · intro d x1 y1 x2 y2 mode j hwf hx1 hy1 hx2 hy2 hne hbit
    apply setPixel_bit_frame d _ _ mode hwf
    rintro ⟨_, _, _, _, hoff, hm⟩
    simp only [Int.toNat_ofNat] at hoff hm
    obtain ⟨ex, ey⟩ := pixel_bit_inj d.size x1 y1 x2 y2 j hx1 hx2 hy1 hy2 hoff hm hbit
    exact hne (by rw [ex, ey])
  · intro d hwf i hi
    have hcw := clear_wf d hwf
    obtain ⟨hawf, _⟩ := addPixels_fields (allPixels d.size) (clear d) hcw
    apply eq_255_of_bits _ (byteAt_lt _ hawf i)
    intro j hj
    obtain ⟨p1, p2, p3, p4⟩ := pixel_of_bit d.size i j hi hj
    have hmem := (mem_allPixels d.size _ _).mpr ⟨p1, p2⟩
    have := addPixels_sets_bit (allPixels d.size) (clear d) hcw _ _ j hmem p1 p2 p4
    rw [show (clear d).size = d.size from rfl, p3] at this
    exact this

/-- Instance of `setPixel_partitions_transfer_buffer`: bit 5 of byte 300 on the half-height
geometry belongs to one pixel, and painting every pixel of the cleared half-height display
fills byte 1023. -/
theorem setPixel_partitions_transfer_buffer_witness :
    (∃! p : Nat × Nat, p.1 < 128 ∧ p.2 < heightOf Size.W128xH32 ∧
        pixelOffset Size.W128xH32 128 p.1 p.2 = 300
          ∧ (pixelMask Size.W128xH32 p.2).testBit 5 = true) ∧
    (demoDisplay Size.W128xH32).wf ∧
    (addPixels (clear (demoDisplay Size.W128xH32))
      (allPixels (demoDisplay Size.W128xH32).size)).frameBuffer.byteAt 1023 = 0xFF :=
  ⟨setPixel_partitions_transfer_buffer.2.1 Size.W128xH32 300 5 (by decide) (by decide),
   demoDisplay_wf _,
   setPixel_partitions_transfer_buffer.2.2.2.2 (demoDisplay Size.W128xH32) (demoDisplay_wf _)
     1023 (by decide)⟩

/-! ## Repeated writes and coordinate wrap-around -/

theorem modeByte_twice (mode : WriteMode) (old mask : Nat) :
    modeByte mode (modeByte mode old mask) mask
      = match mode with
        | ADD => modeByte ADD old mask
        | SUBTRACT => modeByte SUBTRACT old mask
        | INVERT => old := by
  cases mode
  · simp only [modeByte]
    rw [Nat.or_assoc, Nat.or_self]
  · simp only [modeByte]
    rw [Nat.and_assoc, Nat.and_self]
  · simp only [modeByte]
    rw [Nat.xor_assoc, Nat.xor_self, Nat.xor_zero]

theorem set_byteAt_self (l : List Nat) (n : Nat) (h : n < l.length) :
    l.set n ((FrameBuffer.mk l).byteAt n) = l := by
  apply ext_of_byteAt
  · exact List.length_set _ _ _
  · intro i
    rw [byteAt_set l n _ i h]
    split
    · next hi => rw [hi]
    · rfl

/-- Two `setPixel` calls at the same in-bounds pixel in the same mode. -/
theorem setPixel_twice_eq (d : SSD1306) (x y : Nat) (mode : WriteMode) (hwf : d.wf)
    (hx : x < 128) (hy : y < heightOf d.size) :
    setPixel (setPixel d x y mode) x y mode =
      { d with frameBuffer :=
          ⟨d.frameBuffer.buffer.set (pixelOffset d.size 128 x y)
            (modeByte mode
              (modeByte mode (d.frameBuffer.byteAt (pixelOffset d.size 128 x y))
                (pixelMask d.size y))
              (pixelMask d.size y))⟩ } := by
  have hoff : pixelOffset d.size 128 x y < d.frameBuffer.buffer.length :=
    lt_of_lt_of_le (pixelOffset_lt d.size x y hx hy)
      (by simpa [PAGES, PAGE_BYTES] using hwf.2.2.1)
  have hwf' := setPixel_wf d x y mode hwf
  have hsz : (setPixel d x y mode).size = d.size := (setPixel_fields d _ _ _).2.2.1
  have hb := setPixel_byteAt d x y mode hwf hx hy (pixelOffset d.size 128 x y)
  rw [if_pos rfl] at hb
  rw [setPixel_eq (setPixel d x y mode) x y mode hwf' hx (by rw [hsz]; exact hy), hsz, hb]
  rw [setPixel_eq d x y mode hwf hx hy]
  simp only [List.set_set]

/-- C19: for a constructed display of either geometry and every coordinate, in bounds or not,
`setPixel` with INVERT applied twice gives back the display it started from, and `setPixel`
with ADD (respectively SUBTRACT) applied twice gives the same display as applied once. -/
theorem setPixel_twice (d : SSD1306) (x y : Int) (hwf : d.wf) :
    setPixel (setPixel d x y INVERT) x y INVERT = d ∧
    setPixel (setPixel d x y ADD) x y ADD = setPixel d x y ADD ∧
    setPixel (setPixel d x y SUBTRACT) x y SUBTRACT = setPixel d x y SUBTRACT := by
  by_cases hin : 0 ≤ x ∧ x < 128 ∧ 0 ≤ y ∧ y < heightOf d.size
  · obtain ⟨hx0, hx1, hy0, hy1⟩ := hin
    obtain ⟨xn, rfl⟩ := Int.eq_ofNat_of_zero_le hx0
    obtain ⟨yn, rfl⟩ := Int.eq_ofNat_of_zero_le hy0
    have hx : xn < 128 := by omega
    have hy : yn < heightOf d.size := by omega
    have hoff : pixelOffset d.size 128 xn yn < d.frameBuffer.buffer.length :=
      lt_of_lt_of_le (pixelOffset_lt d.size xn yn hx hy)
        (by simpa [PAGES, PAGE_BYTES] using hwf.2.2.1)
    refine ⟨?_, ?_, ?_⟩
    · rw [setPixel_twice_eq d xn yn INVERT hwf hx hy, modeByte_twice]
      simp only []
      rw [set_byteAt_self _ _ hoff]
    · rw [setPixel_twice_eq d xn yn ADD hwf hx hy, modeByte_twice,
        setPixel_eq d xn yn ADD hwf hx hy]
    · rw [setPixel_twice_eq d xn yn SUBTRACT hwf hx hy, modeByte_twice,
        setPixel_eq d xn yn SUBTRACT hwf hx hy]
  · have hout : x < 0 ∨ x ≥ 128 ∨ y < 0 ∨ y ≥ heightOf d.size := by omega
    have h := fun mode => setPixel_out_of_bounds_eq d x y mode hwf.1 hwf.2.1 hout
    refine ⟨?_, ?_, ?_⟩
    · rw [h INVERT, h INVERT]
    · rw [h ADD, h ADD]
    · rw [h SUBTRACT, h SUBTRACT]

/-- Instance of `setPixel_twice`: pixel (127, 63) of the cleared full-height display. -/
theorem setPixel_twice_witness :
    (demoDisplay Size.W128xH64).wf ∧
    setPixel (setPixel (demoDisplay Size.W128xH64) 127 63 INVERT) 127 63 INVERT
      = demoDisplay Size.W128xH64 :=
  ⟨demoDisplay_wf _, (setPixel_twice (demoDisplay Size.W128xH64) 127 63 (demoDisplay_wf _)).1⟩

/-- C20: in `addBitmapImage`, for 16-bit signed anchors, 8-bit `image_width` and
`image_height`, a column byte `x < image_width / 8`, a bit `z < 8` and a row
`y < image_height`, on a display with the constructor's `width` and `height`: when the
coordinates handed to `setPixel`, the sums `x * 8 + z + anchorX` and `y + anchorY` truncated to
`int16_t`, pass the bounds check of `setPixel`, the sums themselves lie in `[0, 128)` and
`[0, height)` and the truncation did not change them. So the truncated and the exact
coordinates always give the same `setPixel` result. -/
theorem addBitmapImage_wrap_never_on_screen (d : SSD1306) (anchorX anchorY : Int)
    (image_width image_height x z y : Nat) (mode : WriteMode)
    (hw : d.width = 128) (hh : d.height = heightOf d.size)
    (hax : -32768 ≤ anchorX ∧ anchorX ≤ 32767) (hay : -32768 ≤ anchorY ∧ anchorY ≤ 32767)
    (hiw : image_width < 256) (hih : image_height < 256)
    (hx : x < image_width / 8) (hz : z < 8) (hy : y < image_height) :
    (¬ (toInt16 ((x * 8 + z : Nat) + anchorX) < 0
          ∨ toInt16 ((x * 8 + z : Nat) + anchorX) ≥ d.width
          ∨ toInt16 ((y : Int) + anchorY) < 0
          ∨ toInt16 ((y : Int) + anchorY) ≥ d.height) →
      0 ≤ ((x * 8 + z : Nat) : Int) + anchorX ∧ ((x * 8 + z : Nat) : Int) + anchorX < 128 ∧
      0 ≤ (y : Int) + anchorY ∧ (y : Int) + anchorY < d.height ∧
      toInt16 ((x * 8 + z : Nat) + anchorX) = (x * 8 + z : Nat) + anchorX ∧
      toInt16 ((y : Int) + anchorY) = (y : Int) + anchorY) ∧
    setPixel d (toInt16 ((x * 8 + z : Nat) + anchorX)) (toInt16 ((y : Int) + anchorY)) mode
      = setPixel d (((x * 8 + z : Nat) : Int) + anchorX) ((y : Int) + anchorY) mode := by
  have hH : heightOf d.size ≤ 64 := by unfold heightOf; split <;> decide
  have key : ¬ (toInt16 ((x * 8 + z : Nat) + anchorX) < 0
          ∨ toInt16 ((x * 8 + z : Nat) + anchorX) ≥ d.width
          ∨ toInt16 ((y : Int) + anchorY) < 0
          ∨ toInt16 ((y : Int) + anchorY) ≥ d.height) →
      0 ≤ ((x * 8 + z : Nat) : Int) + anchorX ∧ ((x * 8 + z : Nat) : Int) + anchorX < 128 ∧
      0 ≤ (y : Int) + anchorY ∧ (y : Int) + anchorY < d.height ∧
      toInt16 ((x * 8 + z : Nat) + anchorX) = (x * 8 + z : Nat) + anchorX ∧
      toInt16 ((y : Int) + anchorY) = (y : Int) + anchorY := by
    intro hpass
    rw [hw, hh] at hpass
    rw [hh]
    unfold toInt16 at hpass ⊢
    omega
  refine ⟨key, ?_⟩
  by_cases hpass : (toInt16 ((x * 8 + z : Nat) + anchorX) < 0
          ∨ toInt16 ((x * 8 + z : Nat) + anchorX) ≥ d.width
          ∨ toInt16 ((y : Int) + anchorY) < 0
          ∨ toInt16 ((y : Int) + anchorY) ≥ d.height)
  · have hout : ((x * 8 + z : Nat) : Int) + anchorX < 0
        ∨ ((x * 8 + z : Nat) : Int) + anchorX ≥ d.width
        ∨ (y : Int) + anchorY < 0 ∨ (y : Int) + anchorY ≥ d.height := by
      rw [hw, hh] at hpass ⊢
      unfold toInt16 at hpass
      omega
    unfold setPixel
    rw [if_pos hpass, if_pos hout]
  · obtain ⟨_, _, _, _, e1, e2⟩ := key hpass
    rw [e1, e2]

/-- Instance of `addBitmapImage_wrap_never_on_screen`: anchor (32767, 0) and the second
bit of the first column byte: the exact sum 32768 wraps to -32768, which fails the bounds
check, so both calls leave the display as it was. -/
theorem addBitmapImage_wrap_never_on_screen_witness :
    toInt16 (((0 * 8 + 1 : Nat) : Int) + 32767) = -32768 ∧
    setPixel (demoDisplay Size.W128xH64) (toInt16 ((0 * 8 + 1 : Nat) + 32767))
        (toInt16 (((0 : Nat) : Int) + 0)) ADD
      = setPixel (demoDisplay Size.W128xH64) (((0 * 8 + 1 : Nat) : Int) + 32767)
          (((0 : Nat) : Int) + 0) ADD :=
  ⟨by decide,
   (addBitmapImage_wrap_never_on_screen (demoDisplay Size.W128xH64) 32767 0 8 1 0 1 0 ADD
      rfl rfl (by decide) (by decide) (by decide) (by decide) (by decide) (by decide)
      (by decide)).2⟩

end pico_ssd1306
